import Mathlib

/-!
Shallow embedding of `md-viewer.py`, a single-file local Markdown-browsing
HTTP server, together with proofs about the claims of its specification.

The embedding models POSIX path strings (no symlinks, no leading `//`
special case), the filesystem as a finite tree, and each request as a pure
function from the server configuration and the raw request path to an HTTP
response.  Python string operations are modelled character-for-character on
`String.data`.
-/

namespace MdViewer

/-! ## Character-list utilities (used to model Python `str` operations) -/

/-- Build a `String` from a character list. -/
def mkStr (cs : List Char) : String := ⟨cs⟩

/-- Helper for `chSplit`: the first group and the remaining groups. -/
def chSplitA (sep : Char) : List Char → List Char × List (List Char)
  | [] => ([], [])
  | c :: rest =>
    let r := chSplitA sep rest
    if c = sep then ([], r.1 :: r.2) else (c :: r.1, r.2)

/-- Split a character list on every occurrence of `sep`, keeping empty
groups — the semantics of Python `str.split(sep)` (on a one-character
pattern).  Never returns `[]`; splitting the empty string gives `[[]]`. -/
def chSplit (sep : Char) (cs : List Char) : List (List Char) :=
  (chSplitA sep cs).1 :: (chSplitA sep cs).2

/-- Interleave groups with `'/'` — the semantics of `"/".join(...)`. -/
def chJoinS : List (List Char) → List Char
  | [] => []
  | g :: gs =>
    match gs with
    | [] => g
    | _ :: _ => g ++ '/' :: chJoinS gs

/-- Concatenate the images of `f` — used to model byte/char expansions. -/
def listFlat (f : α → List β) : List α → List β
  | [] => []
  | a :: as => f a ++ listFlat f as

/-- Boolean list-prefix test (first argument is a prefix of the second). -/
def startsList [DecidableEq α] : List α → List α → Bool
  | [], _ => true
  | _ :: _, [] => false
  | a :: as, b :: bs => if a = b then startsList as bs else false

/-- Boolean list-suffix test (first argument is a suffix of the second). -/
def endsList [DecidableEq α] (t s : List α) : Bool :=
  startsList t.reverse s.reverse

/-- Longest common prefix of two lists — the component loop of
`posixpath.commonpath`. -/
def commonStem [DecidableEq α] : List α → List α → List α
  | a :: as, b :: bs => if a = b then a :: commonStem as bs else []
  | _, _ => []

/-- Are the keys of an association list pairwise distinct? -/
def nodupKeys : List (String × β) → Bool
  | [] => true
  | (n, _) :: rest => !(rest.any (fun p => p.1 = n)) && nodupKeys rest

/-! ## Python string operations -/

/-- Python `s.split("/")` as a list of `String`s. -/
def pySplitSlash (s : String) : List String := (chSplit '/' s.data).map mkStr

/-- Python `s.lstrip("/")`: drop all leading slashes. -/
def pyLstripSlash (s : String) : String := mkStr (s.data.dropWhile (fun c => c = '/'))

/-- Python `s.startswith(t)`. -/
def pyStartsWith (s t : String) : Bool := startsList t.data s.data

/-- Python `s.endswith(t)`. -/
def pyEndsWith (s t : String) : Bool := endsList t.data s.data

/-- Python `s.lower()` (ASCII case mapping; the strings compared in the
program are ASCII file extensions). -/
def pyLower (s : String) : String := mkStr (s.data.map Char.toLower)

/-- The character rewrite of Python `str.title()`: a cased (here: ASCII
alphabetic) character is uppercased after a non-cased character and
lowercased after a cased one; `prevCased` tracks the previous character. -/
def titleChars : List Char → Bool → List Char
  | [], _ => []
  | c :: rest, prevCased =>
    if c.isAlpha then
      (if prevCased then c.toLower else c.toUpper) :: titleChars rest true
    else c :: titleChars rest false

/-- Python `s.title()`. -/
def pyTitle (s : String) : String := mkStr (titleChars s.data false)

/-- `DirectoryHandler._pretty` (line 22-24 of the source):
`name.replace("-", " ").replace("_", " ").title()`. -/
def pretty (name : String) : String :=
  pyTitle (mkStr (name.data.map (fun c => if c = '-' ∨ c = '_' then ' ' else c)))

/-- `os.path.basename`: everything after the last slash. -/
def pyBasename (p : String) : String :=
  mkStr (p.data.reverse.takeWhile (fun c => c ≠ '/')).reverse

/-- `pathlib.PurePosixPath.suffix` of a final component `name`:
the substring from the last dot, unless that dot is the first or the last
character of the name. -/
def pathSuffix (name : String) : String :=
  let cs := name.data
  let ext := cs.reverse.takeWhile (fun c => c ≠ '.')
  if ext.length = cs.length then ""
  else if ext.length = 0 then ""
  else if cs.length - 1 - ext.length = 0 then ""
  else mkStr ('.' :: ext.reverse)

/-! ## POSIX path-string operations (`os.path`, for paths without symlinks
and without the leading-`//` special case) -/

/-- `posixpath.join(a, b)` (two arguments). -/
def osJoin (a b : String) : String :=
  if pyStartsWith b "/" then b
  else if a = "" ∨ pyEndsWith a "/" then a ++ b
  else a ++ "/" ++ b

/-- The component stack of `posixpath.normpath` on an absolute path:
`""` and `"."` are dropped, `".."` pops (and is dropped at the root). -/
def normStack (acc : List String) : List String → List String
  | [] => acc
  | s :: rest =>
    if s = "" ∨ s = "." then normStack acc rest
    else if s = ".." then normStack (acc.drop 1) rest
    else normStack (s :: acc) rest

/-- Canonical component list of an absolute path string: split on `/`,
normalize `""`/`"."`/`".."`. -/
def absSegs (p : String) : List String := (normStack [] (pySplitSlash p)).reverse

/-- Render an absolute path from canonical components (`normpath` output
format): `"/"` for `[]`, otherwise `"/" ++ "/".join(segs)`. -/
def renderAbs (segs : List String) : String :=
  mkStr ('/' :: chJoinS (segs.map String.data))

/-- `os.path.abspath` on an already-absolute path (no symlinks): normpath. -/
def abspath (p : String) : String := renderAbs (absSegs p)

/-- Component list used by `posixpath.commonpath`: split on `/`, drop
empty and `"."` components (no `".."` processing). -/
def cleanParts (p : String) : List String :=
  (pySplitSlash p).filter (fun c => ¬ (c = "" ∨ c = "."))

/-- `os.path.commonpath([a, b])` for two absolute paths. -/
def commonpathOf (a b : String) : String :=
  renderAbs (commonStem (cleanParts a) (cleanParts b))

/-- `os.path.relpath(p, start)` for absolute `p` and `start`. -/
def relpathOf (p start : String) : String :=
  let ps := absSegs p
  let ss := absSegs start
  let i := (commonStem ss ps).length
  let rel := List.replicate (ss.length - i) ".." ++ ps.drop i
  match rel with
  | [] => "."
  | _ :: _ => mkStr (chJoinS (rel.map String.data))

/-! ## `pathlib.PurePosixPath` (string normalization of `Path(a, b)`) -/

/-- The parsed components of a POSIX path string in `pathlib`: empty and
`"."` components are removed (`".."` is kept). -/
def pparts (p : String) : List String :=
  (pySplitSlash p).filter (fun c => ¬ (c = "" ∨ c = "."))

/-- `str(PurePosixPath(a, b))` for a non-absolute `b` appended to `a`
(the only use in the source is `Path(dir_path, item)` with a bare name). -/
def pathlibJoin (a b : String) : String :=
  if pyStartsWith b "/" then renderAbs (pparts b)
  else if pyStartsWith a "/" then renderAbs (pparts a ++ pparts b)
  else mkStr (chJoinS ((pparts a ++ pparts b).map String.data))

/-- `PurePosixPath(p).name` (last retained component, `""` if none). -/
def pathlibName (p : String) : String := (pparts p).getLastD ""

/-- `Path(p).suffix`: the suffix of the path's name. -/
def pathlibSuffix (p : String) : String := pathSuffix (pathlibName p)

/-! ## `urllib.parse.quote` (safe characters plus `/`) -/

/-- UTF-8 encoding of one character. -/
def utf8Bytes (c : Char) : List Nat :=
  let n := c.toNat
  if n < 0x80 then [n]
  else if n < 0x800 then [0xC0 + n / 64, 0x80 + n % 64]
  else if n < 0x10000 then [0xE0 + n / 4096, 0x80 + (n / 64) % 64, 0x80 + n % 64]
  else [0xF0 + n / 262144, 0x80 + (n / 4096) % 64, 0x80 + (n / 64) % 64, 0x80 + n % 64]

/-- Characters `urllib.parse.quote` leaves unescaped with the default
`safe="/"`: ASCII alphanumerics, `_.-~`, and the slash. -/
def quoteSafe (c : Char) : Bool :=
  c.isAlpha || c.isDigit || c = '_' || c = '.' || c = '-' || c = '~' || c = '/'

/-- Uppercase hexadecimal digit. -/
def hexDigitU (n : Nat) : Char :=
  if n < 10 then Char.ofNat (48 + n) else Char.ofNat (55 + n)

/-- `urllib.parse.quote(s)` with the default `safe="/"`. -/
def pyQuote (s : String) : String :=
  mkStr (listFlat
    (fun c =>
      if quoteSafe c then [c]
      else listFlat (fun b => ['%', hexDigitU (b / 16), hexDigitU (b % 16)]) (utf8Bytes c))
    s.data)

/-! ## `urllib.parse.urlparse(...).path` for origin-form request targets -/

/-- Strip `;params` from the last path segment, as `urlparse` does. -/
def stripParams (cs : List Char) : List Char :=
  let relast := cs.reverse.takeWhile (fun c => c ≠ '/')
  if relast.length = cs.length then cs.takeWhile (fun c => c ≠ ';')
  else cs.take (cs.length - relast.length) ++ relast.reverse.takeWhile (fun c => c ≠ ';')

/-- `urllib.parse.urlparse(target).path` for an origin-form request target
(no scheme or authority): drop the fragment (first `#`), then the query
(first `?`), then the params of the last segment. `urlparse` performs no
percent-decoding. -/
def urlparsePath (s : String) : String :=
  mkStr (stripParams ((s.data.takeWhile (fun c => c ≠ '#')).takeWhile (fun c => c ≠ '?')))

/-! ## Filesystem model

A finite directory tree; no symlinks, no permissions, no races.  `statFull`
models POSIX path resolution as performed by `os.stat`: a component
(including `""` from a trailing or doubled slash, or `"."`) after a regular
file fails with `ENOTDIR`; `".."` at the filesystem root stays at the root. -/

inductive FSNode where
  | file (contents : List Nat)
  | dir (children : List (String × FSNode))

/-- Look a name up among a directory's children (first match). -/
def childLookup (cs : List (String × FSNode)) (s : String) : Option FSNode :=
  match cs.find? (fun c => c.1 = s) with
  | some c => some c.2
  | none => none

/-- Resolve a component list against the tree, tracking the ancestor stack
for `".."`; returns the reached node and its ancestor stack. -/
def statFull : List String → FSNode → List FSNode → Option (FSNode × List FSNode)
  | [], n, anc => some (n, anc)
  | _ :: _, .file _, _ => none
  | s :: segs, .dir cs, anc =>
    if s = "" ∨ s = "." then statFull segs (.dir cs) anc
    else if s = ".." then
      match anc with
      | [] => statFull segs (.dir cs) []
      | p :: anc2 => statFull segs p anc2
    else
      match childLookup cs s with
      | some c => statFull segs c ((FSNode.dir cs) :: anc)
      | none => none

/-- `os.stat` of an absolute path string (node only). -/
def statPath (fs : FSNode) (p : String) : Option FSNode :=
  (statFull (pySplitSlash p) fs []).map (fun r => r.1)

/-- `os.path.isfile` / `Path.is_file`. -/
def pathIsFile (fs : FSNode) (p : String) : Bool :=
  match statPath fs p with
  | some (.file _) => true
  | _ => false

/-- `os.path.isdir` / `Path.is_dir`. -/
def pathIsDir (fs : FSNode) (p : String) : Bool :=
  match statPath fs p with
  | some (.dir _) => true
  | _ => false

/-- `open(p, "rb").read()`. -/
def readBytes (fs : FSNode) (p : String) : Option (List Nat) :=
  match statPath fs p with
  | some (.file b) => some b
  | _ => none

/-- A well-formed filesystem entry name: nonempty, not `"."` or `".."`,
and free of path separators (the operating system guarantees this for
anything `os.listdir` returns). -/
def validName (s : String) : Bool :=
  (s != "") && (s != ".") && (s != "..") && !(s.data.any (fun c => c = '/'))

/-- Well-formedness of one directory's child list: every name is a valid
entry name and the names are pairwise distinct. -/
def dirWf (cs : List (String × FSNode)) : Bool :=
  cs.all (fun p => validName p.1) && nodupKeys cs

/-- A well-formed absolute-path component list (what `os.path.abspath`
produces at startup for the root directory). -/
def segsValid (l : List String) : Bool := l.all validName

/-- Is this node a directory? -/
def isDirNode : FSNode → Bool
  | .dir _ => true
  | .file _ => false

/-- Is this node a regular file? -/
def isFileNode : FSNode → Bool
  | .file _ => true
  | .dir _ => false

/-! ## UTF-8 decoding and text-mode reading -/

/-- Is `b` a UTF-8 continuation byte? -/
def isCont (b : Nat) : Bool := 0x80 ≤ b && b < 0xC0

/-- Strict UTF-8 decoding (rejects truncated sequences, overlong encodings,
surrogates, and values above `0x10FFFF`), as Python's `utf-8` codec does. -/
def utf8Decode : List Nat → Option (List Char)
  | [] => some []
  | b :: rest =>
    if b < 0x80 then
      (utf8Decode rest).map (fun cs => Char.ofNat b :: cs)
    else if 0xC2 ≤ b ∧ b ≤ 0xDF then
      match rest with
      | c1 :: rest2 =>
        if isCont c1 then
          (utf8Decode rest2).map (fun cs => Char.ofNat ((b - 0xC0) * 64 + (c1 - 0x80)) :: cs)
        else none
      | [] => none
    else if 0xE0 ≤ b ∧ b ≤ 0xEF then
      match rest with
      | c1 :: c2 :: rest2 =>
        if isCont c1 && isCont c2 then
          let v := (b - 0xE0) * 4096 + (c1 - 0x80) * 64 + (c2 - 0x80)
          if 0x800 ≤ v ∧ ¬ (0xD800 ≤ v ∧ v ≤ 0xDFFF) then
            (utf8Decode rest2).map (fun cs => Char.ofNat v :: cs)
          else none
        else none
      | _ => none
    else if 0xF0 ≤ b ∧ b ≤ 0xF4 then
      match rest with
      | c1 :: c2 :: c3 :: rest2 =>
        if isCont c1 && isCont c2 && isCont c3 then
          let v := (b - 0xF0) * 262144 + (c1 - 0x80) * 4096 + (c2 - 0x80) * 64 + (c3 - 0x80)
          if 0x10000 ≤ v ∧ v ≤ 0x10FFFF then
            (utf8Decode rest2).map (fun cs => Char.ofNat v :: cs)
          else none
        else none
      | _ => none
    else none

/-- Universal-newline translation performed by Python text-mode reads:
`"\r\n"` and `"\r"` both become `"\n"`. -/
def univNewlines : List Char → List Char
  | [] => []
  | '\r' :: '\n' :: rest => '\n' :: univNewlines rest
  | '\r' :: rest => '\n' :: univNewlines rest
  | c :: rest => c :: univNewlines rest

/-- `open(p, "r", encoding="utf-8").read()` applied to the file's bytes:
strict UTF-8 decoding followed by universal-newline translation; `none`
models a raised `UnicodeDecodeError`. -/
def pyReadText (bytes : List Nat) : Option String :=
  (utf8Decode bytes).map (fun cs => mkStr (univNewlines cs))

/-! ## Sorting (`sorted(os.listdir(...))`) -/

/-- Python string `<=`: lexicographic comparison by code point. -/
def chLexLe : List Char → List Char → Bool
  | [], _ => true
  | _ :: _, [] => false
  | a :: as, b :: bs => if a = b then chLexLe as bs else decide (a < b)

/-- `a <= b` on Python strings. -/
def pyStrLe (a b : String) : Bool := chLexLe a.data b.data

/-- Insert into an already sorted list. -/
def insertSorted (s : String) : List String → List String
  | [] => [s]
  | t :: ts => if pyStrLe s t then s :: t :: ts else t :: insertSorted s ts

/-- `sorted(...)` on strings (insertion sort; `sorted` is a comparison sort
over the same total order, so it produces the same list). -/
def sortStrings : List String → List String
  | [] => []
  | s :: ss => insertSorted s (sortStrings ss)

/-! ## HTTP responses and the server -/

/-- A response body: `str.encode()` of a built page, or raw file bytes. -/
inductive Body where
  | text (s : String)
  | bytes (b : List Nat)
deriving DecidableEq

/-- The observable outcome of one `GET` request.  `success` records
`send_response(status)` plus the headers sent in order; `failure` records
`send_error(status)`; `uncaught` marks an exception that escaped `do_GET`
(the underlying server machinery then closes the connection without this
handler producing a status). -/
inductive Response where
  | success (status : Nat) (headers : List (String × String)) (body : Body)
  | failure (status : Nat)
  | uncaught
deriving DecidableEq

/-- Server configuration: `base_dir` (absolute, produced by
`os.path.abspath` at startup), the filesystem, whether `import markdown`
succeeds, and the external `markdown.markdown(·, extensions=[...])`
function, which this repository does not define and which the page
template does not inspect. -/
structure Server where
  base_dir : String
  fs : FSNode
  mdAvailable : Bool
  render : String → String

/-- The text of the markdown page template (lines 57-72) before `{title}`. -/
def mdPagePre : String :=
  "<!DOCTYPE html>\n<html>\n<head><meta charset=\"utf-8\"><title>MD Viewer - "

/-- The back-navigation link of the markdown page template (line 70). -/
def backLink : String := "<a href=\"/\">← Back to directory</a>"

/-- The markdown page template between `{title}` and the back link. -/
def mdPageMidA : String :=
  "</title>\n<style>\n body\x7bfont-family:-apple-system,BlinkMacSystemFont,'Segoe UI',sans-serif;max-width:800px;margin:40px auto;padding:0 20px\x7d\n" ++
  " .nav\x7bmargin-bottom:20px;padding-bottom:10px;border-bottom:1px solid #eee\x7d\n" ++
  " .nav a\x7bcolor:#06c;text-decoration:none\x7d\n" ++
  " pre\x7bbackground:#f5f5f5;padding:10px;border-radius:4px;overflow-x:auto\x7d\n" ++
  " code\x7bbackground:#f5f5f5;padding:2px 4px;border-radius:2px\x7d\n" ++
  " blockquote\x7bborder-left:4px solid #ddd;margin:0;padding-left:20px;color:#666\x7d\n" ++
  "</style></head>\n<body>\n <h1>📘 MD Viewer</h1>\n <div class=\"nav\">"

/-- The markdown page template between the back link and `{body}`. -/
def mdPageMidB : String := "</div>\n "

/-- The text of the markdown page template after `{body}`. -/
def mdPagePost : String := "\n</body></html>"

/-- The markdown page template of `serve_markdown` (lines 57-72),
with `{title}` and `{body}` interpolated. -/
def mdPage (title body : String) : String :=
  mdPagePre ++ title ++ (mdPageMidA ++ backLink ++ mdPageMidB) ++ body ++ mdPagePost

/-- The text of the directory page template (lines 118-132) before the
first `{title}`. -/
def dirPagePre : String :=
  "<!DOCTYPE html>\n<html>\n<head><meta charset=\"utf-8\"><title>MD Viewer - "

/-- The directory page template between the two `{title}` interpolations. -/
def dirPageMid : String :=
  "</title>\n<style>\n body\x7bfont-family:-apple-system,BlinkMacSystemFont,'Segoe UI',sans-serif;margin:40px\x7d\n" ++
  " ul\x7blist-style:none;padding:0\x7d\n" ++
  " li\x7bpadding:8px 0;border-bottom:1px solid #f5f5f5\x7d\n" ++
  " a\x7btext-decoration:none;color:#333\x7d\n" ++
  " a:hover\x7btext-decoration:underline\x7d\n" ++
  "</style></head>\n<body>\n <h1>📘 MD Viewer</h1>\n <h2>📂 "

/-- The directory page template between the second `{title}` and the rows. -/
def dirPageMid2 : String := "</h2>\n <ul>"

/-- The text of the directory page template after the rows. -/
def dirPagePost : String := "</ul>\n</body></html>"

/-- The directory page template of `serve_directory` (lines 118-132). -/
def dirPage (title rowsJoined : String) : String :=
  dirPagePre ++ title ++ dirPageMid ++ title ++ dirPageMid2 ++ rowsJoined ++ dirPagePost

/-- `ICONS.get(suffix, "📄")` with `ICONS = {".md": "📝"}`. -/
def iconsGet (suffix : String) : String := if suffix = ".md" then "📝" else "📄"

/-- `DirectoryHandler._icon_for` (lines 26-27):
`"📁" if path.is_dir() else ICONS.get(path.suffix.lower(), "📄")`. -/
def icon_for (fs : FSNode) (path : String) : String :=
  if pathIsDir fs path then "📁" else iconsGet (pyLower (pathlibSuffix path))

/-- One iteration of the listing loop of `serve_directory` (lines 101-114):
`none` when the entry is skipped (hidden, or a non-`.md` file), otherwise
the generated `<li>` row. -/
def listingRow (srv : Server) (dir_path item : String) : Option String :=
  if pyStartsWith item "." then none
  else
    let item_path := pathlibJoin dir_path item
    if pathIsFile srv.fs item_path ∧ pyLower (pathlibSuffix item_path) ≠ ".md" then none
    else
      let rel := pyQuote (relpathOf item_path srv.base_dir)
      let label := pretty item
      let icon := icon_for srv.fs item_path
      let sfx := if pathIsDir srv.fs item_path then "/" else ""
      some ("<li>" ++ icon ++ " <a href=\"/" ++ rel ++ "\">" ++ label ++ sfx ++ "</a></li>")

/-- `"".join(rows)`. -/
def strJoin : List String → String
  | [] => ""
  | s :: ss => s ++ strJoin ss

/-- All listing rows of a directory with the given child names. -/
def dirRows (srv : Server) (dir_path : String) (names : List String) : List String :=
  (sortStrings names).filterMap (listingRow srv dir_path)

/-- `DirectoryHandler.serve_directory` (lines 98-138).  In this race-free
model `os.listdir` and the fs probes cannot raise, so the
`except Exception → send_error(500)` branch is reached only when
`dir_path` does not resolve to a directory (it never is: the caller checked
`os.path.isdir`). -/
def serve_directory (srv : Server) (dir_path : String) : Response :=
  match statPath srv.fs dir_path with
  | some (.dir cs) =>
    let rows := dirRows srv dir_path (cs.map (fun c => c.1))
    let current := relpathOf dir_path srv.base_dir
    let title := pretty (if current = "." then "." else current)
    .success 200 [("Content-type", "text/html")] (.text (dirPage title (strJoin rows)))
  | _ => .failure 500

/-- `DirectoryHandler.serve_file` (lines 86-95).  In the model the read of
an existing regular file succeeds; a path that does not resolve to a
regular file raises, caught as `send_error(500)`. -/
def serve_file (srv : Server) (file_path : String) : Response :=
  match readBytes srv.fs file_path with
  | some data => .success 200 [("Content-Length", toString data.length)] (.bytes data)
  | none => .failure 500

/-- `DirectoryHandler.serve_markdown` (lines 50-84).  The `try` block
catches only `ImportError` (the plain-text fallback); a failing UTF-8
decode — in either branch — propagates out of the handler (`uncaught`). -/
def serve_markdown (srv : Server) (file_path : String) : Response :=
  match readBytes srv.fs file_path with
  | none => .uncaught
  | some bs =>
    match pyReadText bs with
    | none => .uncaught
    | some text =>
      if srv.mdAvailable then
        let title := pretty (pyBasename file_path)
        .success 200 [("Content-type", "text/html")]
          (.text (mdPage title (srv.render text)))
      else
        .success 200 [("Content-type", "text/plain; charset=utf-8")] (.text text)

/-- `DirectoryHandler.do_GET` (lines 30-47): parse the request target,
join it under `base_dir`, reject paths whose canonical form escapes the
root (403), then dispatch on the resolved path's kind; no percent-decoding
is performed anywhere on the request path. -/
def do_GET (srv : Server) (reqPath : String) : Response :=
  let parsedPath := urlparsePath reqPath
  let file_path := osJoin srv.base_dir (pyLstripSlash parsedPath)
  if ¬ (commonpathOf srv.base_dir (abspath file_path) = srv.base_dir) then
    .failure 403
  else if pathIsFile srv.fs file_path then
    if pyEndsWith file_path ".md" then serve_markdown srv file_path
    else serve_file srv file_path
  else if pathIsDir srv.fs file_path then
    serve_directory srv file_path
  else
    .failure 404

/-! ## Concrete example configurations (used by witnesses) -/

/-- Example filesystem: the served root is `/srv`, holding a mix of
Markdown files, a text file, an uppercase-suffix file, a hidden file, a
subdirectory, a name containing a space, and a file whose bytes are not
valid UTF-8. -/
def fsEx : FSNode :=
  .dir [("srv", .dir [
    ("my-notes.md", .file [104, 105]),
    ("my notes.md", .file [104, 105]),
    ("NOTES.MD", .file [1, 2, 3]),
    ("notes.txt", .file [9, 8]),
    (".hidden.md", .file []),
    ("sub", .dir []),
    ("bad.md", .file [255]),
    ("readme.md", .file [104, 105])])]

/-- Example server over `fsEx` with the markdown library importable; the
external renderer is taken to be the identity function. -/
def srvEx : Server := ⟨"/srv", fsEx, true, fun s => s⟩

/-- The same server with the markdown library unavailable. -/
def srvExNoMd : Server := ⟨"/srv", fsEx, false, fun s => s⟩

/-! ## Lemmas: splitting and joining character lists -/

theorem chSplit_cons_self (sep : Char) (cs : List Char) :
    chSplit sep (sep :: cs) = [] :: chSplit sep cs := by
  simp [chSplit, chSplitA]

theorem chSplit_cons_ne (sep c : Char) (cs : List Char) (h : c ≠ sep) :
    chSplit sep (c :: cs) = (c :: (chSplitA sep cs).1) :: (chSplitA sep cs).2 := by
  simp [chSplit, chSplitA, h]

theorem chSplitA_append_sep (sep : Char) (xs ys : List Char) :
    chSplitA sep (xs ++ sep :: ys) =
      ((chSplitA sep xs).1, (chSplitA sep xs).2 ++ chSplit sep ys) := by
  induction xs with
  | nil => simp [chSplitA, chSplit]
  | cons c xs ih =>
    by_cases h : c = sep <;> simp [chSplitA, h, ih]

theorem chSplit_append_sep (sep : Char) (xs ys : List Char) :
    chSplit sep (xs ++ sep :: ys) = chSplit sep xs ++ chSplit sep ys := by
  simp [chSplit, chSplitA_append_sep]

theorem chSplitA_no_sep (sep : Char) (cs : List Char) (h : sep ∉ cs) :
    chSplitA sep cs = (cs, []) := by
  induction cs with
  | nil => rfl
  | cons c cs ih =>
    rw [List.mem_cons] at h
    push_neg at h
    simp [chSplitA, ih h.2, Ne.symm h.1]

theorem chSplit_no_sep (sep : Char) (cs : List Char) (h : sep ∉ cs) :
    chSplit sep cs = [cs] := by
  simp [chSplit, chSplitA_no_sep sep cs h]

theorem chSplit_mem_no_sep (sep : Char) (cs : List Char) :
    ∀ g ∈ chSplit sep cs, sep ∉ g := by
  induction cs with
  | nil =>
    intro g hg
    simp [chSplit, chSplitA] at hg
    simp [hg]
  | cons c cs ih =>
    intro g hg
    by_cases h : c = sep
    · subst h
      rw [chSplit_cons_self] at hg
      rcases List.mem_cons.mp hg with h1 | h1
      · simp [h1]
      · exact ih g h1
    · rw [chSplit_cons_ne sep c cs h] at hg
      rcases List.mem_cons.mp hg with h1 | h1
      · subst h1
        intro hmem
        rcases List.mem_cons.mp hmem with h2 | h2
        · exact h h2.symm
        · exact ih _ (List.mem_cons_self _ _) h2
      · exact ih g (List.mem_cons_of_mem _ h1)

theorem chSplit_chJoinS (gs : List (List Char)) (hne : gs ≠ [])
    (h : ∀ g ∈ gs, '/' ∉ g) : chSplit '/' (chJoinS gs) = gs := by
  induction gs with
  | nil => cases hne rfl
  | cons g gs ih =>
    cases gs with
    | nil =>
      have hg : '/' ∉ g := h g (by simp)
      simp [chJoinS, chSplit_no_sep '/' g hg]
    | cons g2 gs2 =>
      have hg : '/' ∉ g := h g (by simp)
      have hstep : chJoinS (g :: g2 :: gs2) = g ++ '/' :: chJoinS (g2 :: gs2) := rfl
      rw [hstep, chSplit_append_sep, chSplit_no_sep '/' g hg,
        ih (by simp) (fun x hx => h x (List.mem_cons_of_mem _ hx))]
      rfl

theorem chJoinS_reverse_head (segs : List String) (hne : segs ≠ [])
    (hv : ∀ s ∈ segs, validName s = true) :
    ∃ c t, (chJoinS (segs.map String.data)).reverse = c :: t ∧ c ≠ '/' := by
  induction segs with
  | nil => cases hne rfl
  | cons s segs ih =>
    have hs := hv s (by simp)
    have hsep : ¬ (s.data.any (fun c => c = '/')) = true := by
      simp only [validName, Bool.and_eq_true, Bool.not_eq_true'] at hs
      simp [hs.2]
    have hnil : s.data ≠ [] := by
      intro hd
      simp only [validName, Bool.and_eq_true, bne_iff_ne] at hs
      exact hs.1.1.1 (show s = "" from String.ext hd)
    cases segs with
    | nil =>
      obtain ⟨c, t, hct⟩ := List.exists_cons_of_ne_nil (by simpa using hnil :
        s.data.reverse ≠ [])
      refine ⟨c, t, by simpa [chJoinS] using hct, ?_⟩
      intro hc
      have : c ∈ s.data := by
        have : c ∈ s.data.reverse := by rw [hct]; simp
        simpa using this
      rw [List.any_eq_true] at hsep
      exact hsep ⟨c, this, by simp [hc]⟩
    | cons s2 segs2 =>
      obtain ⟨c, t, hct, hc⟩ := ih (by simp) (fun x hx => hv x (List.mem_cons_of_mem _ hx))
      refine ⟨c, t ++ '/' :: s.data.reverse, ?_, hc⟩
      have hstep : chJoinS ((s :: s2 :: segs2).map String.data)
          = s.data ++ '/' :: chJoinS ((s2 :: segs2).map String.data) := rfl
      rw [hstep, List.reverse_append, List.reverse_cons]
      rw [hct]
      simp

/-! ## Lemmas: prefixes, common stems, normalization stacks -/

theorem validName_spec (s : String) (h : validName s = true) :
    s ≠ "" ∧ s ≠ "." ∧ s ≠ ".." ∧ '/' ∉ s.data := by
  simp only [validName, Bool.and_eq_true, bne_iff_ne, Bool.not_eq_true',
    List.any_eq_false, decide_eq_false_iff_not] at h
  exact ⟨h.1.1.1, h.1.1.2, h.1.2, fun hm => h.2 '/' hm rfl⟩

theorem startsList_append [DecidableEq α] (a l : List α) :
    startsList a (a ++ l) = true := by
  induction a with
  | nil => rfl
  | cons x a ih => simp [startsList, ih]

theorem commonStem_eq_left_iff [DecidableEq α] (a b : List α) :
    commonStem a b = a ↔ startsList a b = true := by
  induction a generalizing b with
  | nil => cases b <;> simp [commonStem, startsList]
  | cons x a ih =>
    cases b with
    | nil => simp [commonStem, startsList]
    | cons y b =>
      by_cases h : x = y
      · subst h
        simp [commonStem, startsList, ih]
      · simp [commonStem, startsList, h]

theorem commonStem_mem [DecidableEq α] (a b : List α) :
    ∀ s ∈ commonStem a b, s ∈ a := by
  induction a generalizing b with
  | nil => intro s hs; cases b <;> simp [commonStem] at hs
  | cons x a ih =>
    intro s hs
    cases b with
    | nil => simp [commonStem] at hs
    | cons y b =>
      by_cases h : x = y
      · subst h
        rw [show commonStem (x :: a) (x :: b) = x :: commonStem a b from by
          simp [commonStem]] at hs
        rcases List.mem_cons.mp hs with h1 | h1
        · simp [h1]
        · exact List.mem_cons_of_mem _ (ih b s h1)
      · rw [show commonStem (x :: a) (y :: b) = [] from by simp [commonStem, h]] at hs
        cases hs

theorem commonStem_self_append [DecidableEq α] (a l : List α) :
    commonStem a (a ++ l) = a := by
  induction a with
  | nil => cases l <;> simp [commonStem]
  | cons x a ih => simp [commonStem, ih]

theorem normStack_append (xs : List String) :
    ∀ (acc ys : List String), normStack acc (xs ++ ys) = normStack (normStack acc xs) ys := by
  induction xs with
  | nil => intro acc ys; rfl
  | cons s xs ih =>
    intro acc ys
    by_cases h1 : s = "" ∨ s = "."
    · simp [normStack, h1, ih]
    · by_cases h2 : s = ".." <;> simp [normStack, h1, h2, ih]

theorem normStack_all_push (l : List String) :
    ∀ acc : List String, (∀ s ∈ l, ¬(s = "" ∨ s = ".") ∧ s ≠ "..") →
      normStack acc l = l.reverse ++ acc := by
  induction l with
  | nil => intro acc _; rfl
  | cons s l ih =>
    intro acc h
    obtain ⟨h1, h2⟩ := h s (by simp)
    rw [show normStack acc (s :: l) = normStack (s :: acc) l from by
      simp [normStack, h1, h2]]
    rw [ih (s :: acc) (fun t ht => h t (List.mem_cons_of_mem _ ht))]
    simp

theorem normStack_mem_valid (P : String → Prop) (l : List String) :
    ∀ acc : List String, (∀ s ∈ acc, P s) →
      (∀ s ∈ l, ¬(s = "" ∨ s = ".") → s ≠ ".." → P s) →
      ∀ s ∈ normStack acc l, P s := by
  induction l with
  | nil => intro acc hacc _ s hs; exact hacc s hs
  | cons t l ih =>
    intro acc hacc hl s hs
    by_cases h1 : t = "" ∨ t = "."
    · rw [show normStack acc (t :: l) = normStack acc l from by simp [normStack, h1]] at hs
      exact ih acc hacc (fun x hx => hl x (List.mem_cons_of_mem _ hx)) s hs
    · by_cases h2 : t = ".."
      · rw [show normStack acc (t :: l) = normStack (acc.drop 1) l from by
          simp [normStack, h1, h2]] at hs
        exact ih (acc.drop 1) (fun x hx => hacc x (List.mem_of_mem_drop hx))
          (fun x hx => hl x (List.mem_cons_of_mem _ hx)) s hs
      · rw [show normStack acc (t :: l) = normStack (t :: acc) l from by
          simp [normStack, h1, h2]] at hs
        refine ih (t :: acc) ?_ (fun x hx => hl x (List.mem_cons_of_mem _ hx)) s hs
        intro x hx
        rcases List.mem_cons.mp hx with h3 | h3
        · subst h3; exact hl x (by simp) h1 h2
        · exact hacc x h3

/-! ## Lemmas: path strings -/

@[simp] theorem data_mkStr (cs : List Char) : (mkStr cs).data = cs := rfl

@[simp] theorem mkStr_data (s : String) : mkStr s.data = s := rfl

theorem ne_empty_of_data (s : String) (h : s.data ≠ []) : s ≠ "" := by
  intro hs
  subst hs
  exact h rfl

theorem data_ne_nil (s : String) (h : s ≠ "") : s.data ≠ [] := by
  intro hd
  exact h (String.ext hd)

/-- Splitting a rendered absolute path recovers the leading empty group
and the components. -/
theorem pySplitSlash_renderAbs (segs : List String) (hne : segs ≠ [])
    (hv : ∀ s ∈ segs, s ≠ "" ∧ '/' ∉ s.data) :
    pySplitSlash (renderAbs segs) = "" :: segs := by
  unfold pySplitSlash renderAbs
  rw [data_mkStr, chSplit_cons_self, chSplit_chJoinS (segs.map String.data)
    (by simpa using hne) (by
      intro g hg
      rw [List.mem_map] at hg
      obtain ⟨s, hs, rfl⟩ := hg
      exact (hv s hs).2)]
  rw [List.map_cons, List.map_map]
  have hid : (mkStr ∘ String.data) = id := funext (fun s => rfl)
  rw [hid, List.map_id]
  rfl

theorem pySplitSlash_root : pySplitSlash (renderAbs []) = ["", ""] := rfl

theorem cleanParts_renderAbs (segs : List String)
    (hv : ∀ s ∈ segs, s ≠ "" ∧ s ≠ "." ∧ '/' ∉ s.data) :
    cleanParts (renderAbs segs) = segs := by
  cases segs with
  | nil => rfl
  | cons s segs =>
    unfold cleanParts
    rw [pySplitSlash_renderAbs (s :: segs) (by simp)
      (fun t ht => ⟨(hv t ht).1, (hv t ht).2.2⟩)]
    rw [List.filter_cons_of_neg (by simp)]
    exact List.filter_eq_self.mpr (fun t ht => by
      have := hv t ht
      simp [this.1, this.2.1])

theorem absSegs_renderAbs (segs : List String)
    (hv : ∀ s ∈ segs, validName s = true) :
    absSegs (renderAbs segs) = segs := by
  cases segs with
  | nil => rfl
  | cons s segs =>
    unfold absSegs
    rw [pySplitSlash_renderAbs (s :: segs) (by simp)
      (fun t ht => ⟨(validName_spec t (hv t ht)).1, (validName_spec t (hv t ht)).2.2.2⟩)]
    rw [show normStack [] ("" :: s :: segs) = normStack [] (s :: segs) from by
      simp [normStack]]
    rw [normStack_all_push (s :: segs) [] (fun t ht => by
      have := validName_spec t (hv t ht)
      exact ⟨by simp [this.1, this.2.1], this.2.2.1⟩)]
    simp

theorem renderAbs_ne_empty (segs : List String) : renderAbs segs ≠ "" := by
  apply ne_empty_of_data
  rw [show (renderAbs segs).data = '/' :: chJoinS (segs.map String.data) from rfl]
  simp

theorem pyEndsWith_renderAbs_slash (segs : List String) (hne : segs ≠ [])
    (hv : ∀ s ∈ segs, validName s = true) :
    pyEndsWith (renderAbs segs) "/" = false := by
  obtain ⟨c, t, hct, hc⟩ := chJoinS_reverse_head segs hne hv
  have hdata : (renderAbs segs).data.reverse = c :: (t ++ ['/']) := by
    rw [show (renderAbs segs).data = '/' :: chJoinS (segs.map String.data) from rfl]
    rw [List.reverse_cons, hct]
    simp
  unfold pyEndsWith endsList
  rw [show ("/" : String).data.reverse = ['/'] from rfl]
  rw [hdata]
  simp [startsList, Ne.symm hc]

/-- Decomposition of the split of `os.path.join(base_dir, rel)` for a
well-formed absolute base and a relative remainder. -/
theorem pySplitSlash_osJoin (bsegs : List String) (rel : String)
    (hv : ∀ s ∈ bsegs, validName s = true)
    (hrel : pyStartsWith rel "/" = false) :
    pySplitSlash (osJoin (renderAbs bsegs) rel) = "" :: (bsegs ++ pySplitSlash rel) := by
  cases bsegs with
  | nil =>
    rw [show osJoin (renderAbs []) rel = renderAbs [] ++ rel from by
      simp [osJoin, hrel, pyEndsWith, endsList, startsList]]
    unfold pySplitSlash
    rw [String.data_append]
    rw [show (renderAbs []).data = ['/'] from rfl]
    rw [show ['/'] ++ rel.data = '/' :: rel.data from rfl, chSplit_cons_self]
    rfl
  | cons b bs =>
    rw [show osJoin (renderAbs (b :: bs)) rel = renderAbs (b :: bs) ++ "/" ++ rel from by
      simp [osJoin, hrel, renderAbs_ne_empty,
        pyEndsWith_renderAbs_slash (b :: bs) (by simp) hv]]
    unfold pySplitSlash
    rw [String.data_append, String.data_append]
    rw [show ("/" : String).data = ['/'] from rfl]
    rw [List.append_assoc, show ['/'] ++ rel.data = '/' :: rel.data from rfl]
    rw [chSplit_append_sep]
    rw [show chSplit '/' (renderAbs (b :: bs)).data = chSplit '/' ('/' :: chJoinS ((b :: bs).map String.data)) from rfl]
    rw [chSplit_cons_self, chSplit_chJoinS ((b :: bs).map String.data)
      (by simp) (by
        intro g hg
        rw [List.mem_map] at hg
        obtain ⟨s, hs, rfl⟩ := hg
        exact (validName_spec s (hv s hs)).2.2.2)]
    rw [List.map_append, List.map_cons, List.map_map]
    have hid : (mkStr ∘ String.data) = id := funext (fun s => rfl)
    rw [hid, List.map_id]
    rfl

/-- Canonicalization of the joined request path, expressed over the base
components and the relative remainder. -/
theorem absSegs_osJoin (bsegs : List String) (rel : String)
    (hv : ∀ s ∈ bsegs, validName s = true)
    (hrel : pyStartsWith rel "/" = false) :
    absSegs (osJoin (renderAbs bsegs) rel)
      = (normStack bsegs.reverse (pySplitSlash rel)).reverse := by
  unfold absSegs
  rw [pySplitSlash_osJoin bsegs rel hv hrel]
  rw [show normStack [] ("" :: (bsegs ++ pySplitSlash rel))
      = normStack [] (bsegs ++ pySplitSlash rel) from by simp [normStack]]
  rw [normStack_append bsegs [] (pySplitSlash rel)]
  rw [normStack_all_push bsegs [] (fun t ht => by
    have := validName_spec t (hv t ht)
    exact ⟨by simp [this.1, this.2.1], this.2.2.1⟩)]
  rw [List.append_nil]

theorem pySplitSlash_mem_no_slash (p : String) :
    ∀ s ∈ pySplitSlash p, '/' ∉ s.data := by
  intro s hs
  unfold pySplitSlash at hs
  rw [List.mem_map] at hs
  obtain ⟨g, hg, rfl⟩ := hs
  rw [data_mkStr]
  exact chSplit_mem_no_sep '/' p.data g hg

/-- Every canonical component of a path is a plain name: nonempty, not a
dot entry, and slash-free. -/
theorem absSegs_valid (p : String) :
    ∀ s ∈ absSegs p, s ≠ "" ∧ s ≠ "." ∧ s ≠ ".." ∧ '/' ∉ s.data := by
  intro s hs
  unfold absSegs at hs
  rw [List.mem_reverse] at hs
  refine normStack_mem_valid (fun s => s ≠ "" ∧ s ≠ "." ∧ s ≠ ".." ∧ '/' ∉ s.data)
    (pySplitSlash p) [] (fun t ht => absurd ht (List.not_mem_nil t)) ?_ s hs
  intro t ht hg1 hg2
  push_neg at hg1
  exact ⟨hg1.1, hg1.2, hg2, pySplitSlash_mem_no_slash p t ht⟩

/-- The containment check of `do_GET` (line 34) succeeds exactly when the
canonical components of the base directory are a prefix of those of the
resolved path — i.e. when the resolved path is the root or a descendant. -/
theorem commonpath_check_iff (bsegs : List String) (q : String)
    (hv : ∀ s ∈ bsegs, validName s = true) :
    (commonpathOf (renderAbs bsegs) (abspath q) = renderAbs bsegs)
      ↔ startsList bsegs (absSegs q) = true := by
  have hq : ∀ s ∈ absSegs q, s ≠ "" ∧ s ≠ "." ∧ '/' ∉ s.data := by
    intro s hs
    have := absSegs_valid q s hs
    exact ⟨this.1, this.2.1, this.2.2.2⟩
  have hb : ∀ s ∈ bsegs, s ≠ "" ∧ s ≠ "." ∧ '/' ∉ s.data := by
    intro s hs
    have := validName_spec s (hv s hs)
    exact ⟨this.1, this.2.1, this.2.2.2⟩
  unfold commonpathOf abspath
  rw [show cleanParts (renderAbs (absSegs q)) = absSegs q from
    cleanParts_renderAbs _ hq]
  rw [show cleanParts (renderAbs bsegs) = bsegs from cleanParts_renderAbs _ hb]
  constructor
  · intro h
    have hstem : ∀ s ∈ commonStem bsegs (absSegs q), s ≠ "" ∧ s ≠ "." ∧ '/' ∉ s.data :=
      fun s hs => hb s (commonStem_mem bsegs (absSegs q) s hs)
    have := congrArg cleanParts h
    rw [cleanParts_renderAbs _ hstem, cleanParts_renderAbs _ hb] at this
    exact (commonStem_eq_left_iff bsegs (absSegs q)).mp this
  · intro h
    rw [(commonStem_eq_left_iff bsegs (absSegs q)).mpr h]

/-! ## Lemmas: filesystem resolution -/

theorem pySplitSlash_ne_nil (p : String) : pySplitSlash p ≠ [] := by
  unfold pySplitSlash chSplit
  simp

theorem statFull_append (xs : List String) :
    ∀ (ys : List String) (n : FSNode) (anc : List FSNode),
      statFull (xs ++ ys) n anc = (statFull xs n anc).bind (fun r => statFull ys r.1 r.2) := by
  induction xs with
  | nil => intro ys n anc; rfl
  | cons s xs ih =>
    intro ys n anc
    cases n with
    | file b => rfl
    | dir cs =>
      by_cases h1 : s = "" ∨ s = "."
      · rw [show ((s :: xs) ++ ys) = s :: (xs ++ ys) from rfl]
        rw [show statFull (s :: (xs ++ ys)) (.dir cs) anc = statFull (xs ++ ys) (.dir cs) anc from by
          simp [statFull, h1]]
        rw [show statFull (s :: xs) (.dir cs) anc = statFull xs (.dir cs) anc from by
          simp [statFull, h1]]
        exact ih ys (.dir cs) anc
      · by_cases h2 : s = ".."
        · cases anc with
          | nil =>
            rw [show ((s :: xs) ++ ys) = s :: (xs ++ ys) from rfl]
            rw [show statFull (s :: (xs ++ ys)) (.dir cs) [] = statFull (xs ++ ys) (.dir cs) [] from by
              simp [statFull, h1, h2]]
            rw [show statFull (s :: xs) (.dir cs) [] = statFull xs (.dir cs) [] from by
              simp [statFull, h1, h2]]
            exact ih ys (.dir cs) []
          | cons p anc2 =>
            rw [show ((s :: xs) ++ ys) = s :: (xs ++ ys) from rfl]
            rw [show statFull (s :: (xs ++ ys)) (.dir cs) (p :: anc2) = statFull (xs ++ ys) p anc2 from by
              simp [statFull, h1, h2]]
            rw [show statFull (s :: xs) (.dir cs) (p :: anc2) = statFull xs p anc2 from by
              simp [statFull, h1, h2]]
            exact ih ys p anc2
        · rw [show ((s :: xs) ++ ys) = s :: (xs ++ ys) from rfl]
          cases hcl : childLookup cs s with
          | none =>
            rw [show statFull (s :: (xs ++ ys)) (.dir cs) anc = none from by
              simp [statFull, h1, h2, hcl]]
            rw [show statFull (s :: xs) (.dir cs) anc = none from by
              simp [statFull, h1, h2, hcl]]
            rfl
          | some c =>
            rw [show statFull (s :: (xs ++ ys)) (.dir cs) anc
                = statFull (xs ++ ys) c ((FSNode.dir cs) :: anc) from by
              simp [statFull, h1, h2, hcl]]
            rw [show statFull (s :: xs) (.dir cs) anc
                = statFull xs c ((FSNode.dir cs) :: anc) from by
              simp [statFull, h1, h2, hcl]]
            exact ih ys c ((FSNode.dir cs) :: anc)

/-- Dropping empty and `"."` components does not change a successful
resolution (they are skipped at directories, and a successful resolution
never has a pending component at a file). -/
theorem statFull_filter (l : List String) :
    ∀ (n : FSNode) (anc : List FSNode) (r : FSNode × List FSNode),
      statFull l n anc = some r →
      statFull (l.filter (fun s => ¬ (s = "" ∨ s = "."))) n anc = some r := by
  induction l with
  | nil => intro n anc r h; exact h
  | cons s l ih =>
    intro n anc r h
    cases n with
    | file b => cases h
    | dir cs =>
      by_cases h1 : s = "" ∨ s = "."
      · rw [show statFull (s :: l) (.dir cs) anc = statFull l (.dir cs) anc from by
          simp [statFull, h1]] at h
        rw [show (s :: l).filter (fun s => ¬ (s = "" ∨ s = "."))
            = l.filter (fun s => ¬ (s = "" ∨ s = ".")) from by
          simp only [List.filter_cons]
          rcases h1 with h1 | h1 <;> subst h1 <;> simp]
        exact ih (.dir cs) anc r h
      · have h1c := h1
        push_neg at h1c
        rw [show (s :: l).filter (fun s => ¬ (s = "" ∨ s = "."))
            = s :: l.filter (fun s => ¬ (s = "" ∨ s = ".")) from by
          simp [List.filter_cons, h1c.1, h1c.2]]
        by_cases h2 : s = ".."
        · cases anc with
          | nil =>
            rw [show statFull (s :: l) (.dir cs) [] = statFull l (.dir cs) [] from by
              simp [statFull, h1, h2]] at h
            rw [show statFull (s :: l.filter (fun s => ¬ (s = "" ∨ s = "."))) (.dir cs) []
                = statFull (l.filter (fun s => ¬ (s = "" ∨ s = "."))) (.dir cs) [] from by
              simp [statFull, h1, h2]]
            exact ih (.dir cs) [] r h
          | cons p anc2 =>
            rw [show statFull (s :: l) (.dir cs) (p :: anc2) = statFull l p anc2 from by
              simp [statFull, h1, h2]] at h
            rw [show statFull (s :: l.filter (fun s => ¬ (s = "" ∨ s = "."))) (.dir cs) (p :: anc2)
                = statFull (l.filter (fun s => ¬ (s = "" ∨ s = "."))) p anc2 from by
              simp [statFull, h1, h2]]
            exact ih p anc2 r h
        · cases hcl : childLookup cs s with
          | none =>
            rw [show statFull (s :: l) (.dir cs) anc = none from by
              simp [statFull, h1, h2, hcl]] at h
            cases h
          | some c =>
            rw [show statFull (s :: l) (.dir cs) anc
                = statFull l c ((FSNode.dir cs) :: anc) from by
              simp [statFull, h1, h2, hcl]] at h
            rw [show statFull (s :: l.filter (fun s => ¬ (s = "" ∨ s = "."))) (.dir cs) anc
                = statFull (l.filter (fun s => ¬ (s = "" ∨ s = "."))) c ((FSNode.dir cs) :: anc) from by
              simp [statFull, h1, h2, hcl]]
            exact ih c ((FSNode.dir cs) :: anc) r h

theorem childLookup_of_mem (cs : List (String × FSNode)) (item : String) (node : FSNode)
    (hmem : (item, node) ∈ cs) (hnodup : nodupKeys cs = true) :
    childLookup cs item = some node := by
  induction cs with
  | nil => cases hmem
  | cons p rest ih =>
    obtain ⟨n, c⟩ := p
    rw [show nodupKeys ((n, c) :: rest) = (!(rest.any (fun p => p.1 = n)) && nodupKeys rest) from rfl,
      Bool.and_eq_true, Bool.not_eq_true'] at hnodup
    rcases List.mem_cons.mp hmem with h1 | h1
    · cases h1
      simp [childLookup]
    · have hne : n ≠ item := by
        intro hni
        rw [List.any_eq_false] at hnodup
        exact (by simpa [hni] using hnodup.1 (item, node) h1)
      rw [show childLookup ((n, c) :: rest) item = childLookup rest item from by
        simp [childLookup, List.find?, hne]]
      exact ih h1 hnodup.2

theorem pparts_eq_filter (p : String) :
    pparts p = (pySplitSlash p).filter (fun s => ¬ (s = "" ∨ s = ".")) := rfl

theorem pparts_valid (p : String) :
    ∀ s ∈ pparts p, s ≠ "" ∧ s ≠ "." ∧ '/' ∉ s.data := by
  intro s hs
  rw [pparts_eq_filter, List.mem_filter] at hs
  obtain ⟨hmem, hcond⟩ := hs
  rw [decide_eq_true_eq] at hcond
  push_neg at hcond
  exact ⟨hcond.1, hcond.2, pySplitSlash_mem_no_slash p s hmem⟩

theorem pyStartsWith_slash_of_valid (item : String) (h : validName item = true) :
    pyStartsWith item "/" = false := by
  obtain ⟨h1, _, _, h4⟩ := validName_spec item h
  obtain ⟨c, t, hct⟩ := List.exists_cons_of_ne_nil (data_ne_nil item h1)
  unfold pyStartsWith
  rw [show ("/" : String).data = ['/'] from rfl, hct]
  have hc : c ≠ '/' := by
    intro hc
    subst hc
    exact h4 (by rw [hct]; simp)
  simp [startsList, Ne.symm hc]

theorem pyStartsWith_renderAbs_slash (l : List String) :
    pyStartsWith (renderAbs l) "/" = true := by
  unfold pyStartsWith
  rw [show ("/" : String).data = ['/'] from rfl]
  rw [show (renderAbs l).data = '/' :: chJoinS (l.map String.data) from rfl]
  simp [startsList]

theorem pparts_single (item : String) (h : validName item = true) :
    pparts item = [item] := by
  obtain ⟨h1, h2, _, h4⟩ := validName_spec item h
  rw [pparts_eq_filter]
  unfold pySplitSlash
  rw [chSplit_no_sep '/' item.data h4]
  rw [show ([item.data].map mkStr) = [item] from by simp]
  simp [h1, h2]

/-- Resolving `Path(dir_path, item)` when `dir_path` resolves to a
directory with children `cs` finds exactly the child named `item`. -/
theorem statFull_pathlibJoin (fs : FSNode) (dir_path item : String)
    (cs : List (String × FSNode)) (anc : List FSNode) (node : FSNode)
    (hd : statFull (pySplitSlash dir_path) fs [] = some (.dir cs, anc))
    (habs : pyStartsWith dir_path "/" = true)
    (hitem : validName item = true)
    (hmem : (item, node) ∈ cs) (hnodup : nodupKeys cs = true) :
    statFull (pySplitSlash (pathlibJoin dir_path item)) fs []
      = some (node, (FSNode.dir cs) :: anc) := by
  obtain ⟨hne, hdot, hddot, hslash⟩ := validName_spec item hitem
  have hji : pathlibJoin dir_path item = renderAbs (pparts dir_path ++ [item]) := by
    unfold pathlibJoin
    rw [pyStartsWith_slash_of_valid item hitem, habs]
    rw [pparts_single item hitem]
    simp
  rw [hji]
  rw [pySplitSlash_renderAbs (pparts dir_path ++ [item]) (by simp) (by
    intro s hs
    rcases List.mem_append.mp hs with h1 | h1
    · exact ⟨(pparts_valid dir_path s h1).1, (pparts_valid dir_path s h1).2.2⟩
    · rw [List.mem_singleton.mp h1]
      exact ⟨hne, hslash⟩)]
  cases fs with
  | file b =>
    obtain ⟨s, rest, hsr⟩ := List.exists_cons_of_ne_nil (pySplitSlash_ne_nil dir_path)
    rw [hsr] at hd
    cases hd
  | dir rcs =>
    rw [show statFull ("" :: (pparts dir_path ++ [item])) (.dir rcs) []
        = statFull (pparts dir_path ++ [item]) (.dir rcs) [] from by
      simp [statFull]]
    rw [statFull_append]
    have hp : statFull (pparts dir_path) (.dir rcs) [] = some (.dir cs, anc) := by
      rw [pparts_eq_filter]
      exact statFull_filter (pySplitSlash dir_path) (.dir rcs) [] _ hd
    rw [hp]
    rw [show Option.bind (some ((FSNode.dir cs), anc))
        (fun r => statFull [item] r.1 r.2) = statFull [item] (.dir cs) anc from rfl]
    rw [show statFull [item] (.dir cs) anc
        = statFull [] node ((FSNode.dir cs) :: anc) from by
      simp [statFull, hne, hdot, hddot, childLookup_of_mem cs item node hmem hnodup]]
    rfl

/-- The name of `Path(dir_path, item)` is `item`, hence so is the suffix
source. -/
theorem pathlibName_pathlibJoin (dir_path item : String)
    (habs : pyStartsWith dir_path "/" = true) (hitem : validName item = true) :
    pathlibName (pathlibJoin dir_path item) = item := by
  have hji : pathlibJoin dir_path item = renderAbs (pparts dir_path ++ [item]) := by
    unfold pathlibJoin
    rw [pyStartsWith_slash_of_valid item hitem, habs, pparts_single item hitem]
    simp
  obtain ⟨hne, hdot, _, hslash⟩ := validName_spec item hitem
  unfold pathlibName
  rw [hji]
  rw [show pparts (renderAbs (pparts dir_path ++ [item]))
      = cleanParts (renderAbs (pparts dir_path ++ [item])) from rfl]
  rw [cleanParts_renderAbs (pparts dir_path ++ [item]) (by
    intro s hs
    rcases List.mem_append.mp hs with h1 | h1
    · exact pparts_valid dir_path s h1
    · rw [List.mem_singleton.mp h1]
      exact ⟨hne, hdot, hslash⟩)]
  simp

theorem pathlibSuffix_pathlibJoin (dir_path item : String)
    (habs : pyStartsWith dir_path "/" = true) (hitem : validName item = true) :
    pathlibSuffix (pathlibJoin dir_path item) = pathSuffix item := by
  unfold pathlibSuffix
  rw [pathlibName_pathlibJoin dir_path item habs hitem]

/-! ## Lemmas: basename and suffix matching -/

theorem startsList_append_stop (tr : List Char) :
    ∀ B D : List Char, '/' ∉ tr → (D = [] ∨ ∃ t, D = '/' :: t) →
      startsList tr (B ++ D) = startsList tr B := by
  induction tr with
  | nil => intro B D _ _; rfl
  | cons a tr ih =>
    intro B D htr hD
    have ha : a ≠ '/' := fun h => htr (h ▸ List.mem_cons_self a tr)
    cases B with
    | nil =>
      rcases hD with h | ⟨t, rfl⟩
      · rw [h]; rfl
      · simp [startsList, ha]
    | cons b B =>
      by_cases hab : a = b
      · simp only [List.cons_append, startsList, hab, if_pos rfl]
        exact ih B D (fun h => htr (List.mem_cons_of_mem a h)) hD
      · simp [startsList, hab]

/-- A path ends in `.md` exactly when its basename does (the comparison
never reaches past the final path separator). -/
theorem pyEndsWith_md_basename (p : String) :
    pyEndsWith p ".md" = pyEndsWith (pyBasename p) ".md" := by
  unfold pyEndsWith pyBasename endsList
  rw [data_mkStr, List.reverse_reverse]
  have hsplit : p.data.reverse
      = p.data.reverse.takeWhile (fun c => c ≠ '/')
        ++ p.data.reverse.dropWhile (fun c => c ≠ '/') :=
    (List.takeWhile_append_dropWhile _ _).symm
  rw [show startsList (".md" : String).data.reverse p.data.reverse
      = startsList (".md" : String).data.reverse
          (p.data.reverse.takeWhile (fun c => c ≠ '/')
            ++ p.data.reverse.dropWhile (fun c => c ≠ '/')) from by rw [← hsplit]]
  apply startsList_append_stop
  · intro h
    rw [List.mem_reverse] at h
    simp [String.data] at h
  · cases hdw : p.data.reverse.dropWhile (fun c => c ≠ '/') with
    | nil => left; rfl
    | cons d t =>
      right
      refine ⟨t, ?_⟩
      have hd : (fun c => decide (c ≠ '/')) d = false := by
        have := List.head?_dropWhile_not (fun c => decide (c ≠ '/')) p.data.reverse
        rw [hdw] at this
        simpa using this
      rw [decide_eq_false_iff_not] at hd
      push_neg at hd
      rw [hd]

/-! ## Lemmas: relative paths -/

theorem relpathOf_child (bsegs : List String) (item : String)
    (hv : ∀ s ∈ bsegs, validName s = true) (hitem : validName item = true) :
    relpathOf (renderAbs (bsegs ++ [item])) (renderAbs bsegs) = item := by
  have hall : ∀ s ∈ bsegs ++ [item], validName s = true := by
    intro s hs
    rcases List.mem_append.mp hs with h1 | h1
    · exact hv s h1
    · rw [List.mem_singleton.mp h1]; exact hitem
  simp only [relpathOf, absSegs_renderAbs (bsegs ++ [item]) hall, absSegs_renderAbs bsegs hv,
    commonStem_self_append, Nat.sub_self, List.replicate_zero, List.nil_append, List.drop_left]
  rfl

/-! ## Lemmas: sorting -/

theorem mem_insertSorted (s a : String) (l : List String) :
    a ∈ insertSorted s l ↔ a = s ∨ a ∈ l := by
  induction l with
  | nil => simp [insertSorted]
  | cons t ts ih =>
    by_cases h : pyStrLe s t
    · simp [insertSorted, h]
    · rw [show insertSorted s (t :: ts) = t :: insertSorted s ts from by
        simp [insertSorted, h]]
      rw [List.mem_cons, ih, List.mem_cons]
      tauto

theorem mem_sortStrings (a : String) (l : List String) :
    a ∈ sortStrings l ↔ a ∈ l := by
  induction l with
  | nil => simp [sortStrings]
  | cons s ss ih =>
    rw [show sortStrings (s :: ss) = insertSorted s (sortStrings ss) from rfl]
    rw [mem_insertSorted, ih, List.mem_cons]

theorem chLexLe_total (a : List Char) : ∀ b, chLexLe a b = true ∨ chLexLe b a = true := by
  induction a with
  | nil => intro b; left; rfl
  | cons x a ih =>
    intro b
    cases b with
    | nil => right; rfl
    | cons y b =>
      by_cases h : x = y
      · subst h
        rcases ih b with h1 | h1
        · left; simpa [chLexLe] using h1
        · right; simpa [chLexLe] using h1
      · rcases lt_trichotomy x y with h1 | h1 | h1
        · left; simp [chLexLe, h, h1]
        · exact absurd h1 h
        · right; simp [chLexLe, Ne.symm h, h1, not_lt_of_gt h1]

theorem chLexLe_trans (a : List Char) :
    ∀ b c, chLexLe a b = true → chLexLe b c = true → chLexLe a c = true := by
  induction a with
  | nil => intro b c _ _; rfl
  | cons x a ih =>
    intro b c h1 h2
    cases b with
    | nil => cases h1
    | cons y b =>
      cases c with
      | nil => cases h2
      | cons z c =>
        by_cases hxy : x = y
        · subst hxy
          rw [show chLexLe (x :: a) (x :: b) = chLexLe a b from by simp [chLexLe]] at h1
          by_cases hxz : x = z
          · subst hxz
            rw [show chLexLe (x :: b) (x :: c) = chLexLe b c from by simp [chLexLe]] at h2
            rw [show chLexLe (x :: a) (x :: c) = chLexLe a c from by simp [chLexLe]]
            exact ih b c h1 h2
          · rw [show chLexLe (x :: b) (z :: c) = decide (x < z) from by simp [chLexLe, hxz]] at h2
            rw [show chLexLe (x :: a) (z :: c) = decide (x < z) from by simp [chLexLe, hxz]]
            exact h2
        · rw [show chLexLe (x :: a) (y :: b) = decide (x < y) from by simp [chLexLe, hxy]] at h1
          rw [decide_eq_true_eq] at h1
          by_cases hyz : y = z
          · subst hyz
            rw [show chLexLe (x :: a) (y :: c) = decide (x < y) from by simp [chLexLe, hxy]]
            simp [h1]
          · rw [show chLexLe (y :: b) (z :: c) = decide (y < z) from by simp [chLexLe, hyz]] at h2
            rw [decide_eq_true_eq] at h2
            have hxz : x < z := lt_trans h1 h2
            rw [show chLexLe (x :: a) (z :: c) = decide (x < z) from by
              simp [chLexLe, ne_of_lt hxz]]
            simp [hxz]

theorem pyStrLe_total (a b : String) : pyStrLe a b = true ∨ pyStrLe b a = true :=
  chLexLe_total a.data b.data

theorem pyStrLe_trans (a b c : String) (h1 : pyStrLe a b = true)
    (h2 : pyStrLe b c = true) : pyStrLe a c = true :=
  chLexLe_trans a.data b.data c.data h1 h2

theorem pairwise_insertSorted (s : String) (l : List String)
    (h : l.Pairwise (fun a b => pyStrLe a b = true)) :
    (insertSorted s l).Pairwise (fun a b => pyStrLe a b = true) := by
  induction l with
  | nil => simp [insertSorted]
  | cons t ts ih =>
    rw [List.pairwise_cons] at h
    by_cases hle : pyStrLe s t = true
    · rw [show insertSorted s (t :: ts) = s :: t :: ts from by simp [insertSorted, hle]]
      rw [List.pairwise_cons]
      refine ⟨?_, by rw [List.pairwise_cons]; exact h⟩
      intro a ha
      rcases List.mem_cons.mp ha with h1 | h1
      · subst h1; exact hle
      · exact pyStrLe_trans s t a hle (h.1 a h1)
    · rw [show insertSorted s (t :: ts) = t :: insertSorted s ts from by
        simp [insertSorted, hle]]
      rw [List.pairwise_cons]
      constructor
      · intro a ha
        rcases (mem_insertSorted s a ts).mp ha with h1 | h1
        · subst h1
          rcases pyStrLe_total a t with h2 | h2
          · exact absurd h2 (by simpa using hle)
          · exact h2
        · exact h.1 a h1
      · exact ih h.2

theorem sortStrings_pairwise (l : List String) :
    (sortStrings l).Pairwise (fun a b => pyStrLe a b = true) := by
  induction l with
  | nil => simp [sortStrings]
  | cons s ss ih => exact pairwise_insertSorted s (sortStrings ss) ih

/-! ## Lemmas: joined output -/

theorem infix_strJoin (r : String) (l : List String) (h : r ∈ l) :
    r.data <:+: (strJoin l).data := by
  induction l with
  | nil => cases h
  | cons s ss ih =>
    rcases List.mem_cons.mp h with h1 | h1
    · subst h1
      exact ⟨[], (strJoin ss).data, by simp [strJoin, String.data_append]⟩
    · obtain ⟨pre, post, hp⟩ := ih h1
      refine ⟨s.data ++ pre, post, ?_⟩
      rw [show (strJoin (s :: ss)) = s ++ strJoin ss from rfl, String.data_append, ← hp]
      simp

/-! ## Lemmas: the dispatcher -/

theorem do_GET_outside (srv : Server) (bsegs : List String) (p : String)
    (hbd : srv.base_dir = renderAbs bsegs)
    (hv : ∀ s ∈ bsegs, validName s = true)
    (hout : startsList bsegs
      (absSegs (osJoin srv.base_dir (pyLstripSlash (urlparsePath p)))) = false) :
    do_GET srv p = .failure 403 := by
  have hcond : ¬ (commonpathOf srv.base_dir
      (abspath (osJoin srv.base_dir (pyLstripSlash (urlparsePath p)))) = srv.base_dir) := by
    intro heq
    rw [hbd] at heq hout
    rw [(commonpath_check_iff bsegs _ hv).mp heq] at hout
    cases hout
  simp only [do_GET]
  rw [if_pos hcond]

theorem do_GET_inside (srv : Server) (bsegs : List String) (p : String)
    (hbd : srv.base_dir = renderAbs bsegs)
    (hv : ∀ s ∈ bsegs, validName s = true)
    (hin : startsList bsegs
      (absSegs (osJoin srv.base_dir (pyLstripSlash (urlparsePath p)))) = true) :
    do_GET srv p =
      (let fp := osJoin srv.base_dir (pyLstripSlash (urlparsePath p))
       if pathIsFile srv.fs fp then
         if pyEndsWith fp ".md" then serve_markdown srv fp else serve_file srv fp
       else if pathIsDir srv.fs fp then serve_directory srv fp
       else .failure 404) := by
  have hin2 : startsList bsegs
      (absSegs (osJoin (renderAbs bsegs) (pyLstripSlash (urlparsePath p)))) = true := by
    rw [← hbd]
    exact hin
  have hcond : commonpathOf srv.base_dir
      (abspath (osJoin srv.base_dir (pyLstripSlash (urlparsePath p)))) = srv.base_dir := by
    rw [hbd]
    exact (commonpath_check_iff bsegs _ hv).mpr hin2
  simp only [do_GET]
  rw [if_neg (by simpa using hcond)]

theorem serve_markdown_success_status (srv : Server) (fp : String) (st : Nat)
    (hs : List (String × String)) (b : Body)
    (h : serve_markdown srv fp = .success st hs b) : st = 200 := by
  cases hrb : readBytes srv.fs fp with
  | none => simp [serve_markdown, hrb] at h
  | some bs =>
    cases hrt : pyReadText bs with
    | none => simp [serve_markdown, hrb, hrt] at h
    | some text =>
      by_cases hmd : srv.mdAvailable = true
      · simp [serve_markdown, hrb, hrt, hmd] at h
        omega
      · simp [serve_markdown, hrb, hrt, hmd] at h
        omega

theorem serve_file_success_status (srv : Server) (fp : String) (st : Nat)
    (hs : List (String × String)) (b : Body)
    (h : serve_file srv fp = .success st hs b) : st = 200 := by
  cases hrb : readBytes srv.fs fp with
  | none => simp [serve_file, hrb] at h
  | some bs =>
    simp [serve_file, hrb] at h
    omega

theorem serve_directory_success_status (srv : Server) (fp : String) (st : Nat)
    (hs : List (String × String)) (b : Body)
    (h : serve_directory srv fp = .success st hs b) : st = 200 := by
  cases hsp : statPath srv.fs fp with
  | none => simp [serve_directory, hsp] at h
  | some n =>
    cases n with
    | file bs => simp [serve_directory, hsp] at h
    | dir cs =>
      simp [serve_directory, hsp] at h
      omega

/-! ## Claim theorems -/

/-- C1: a request whose path, joined to the root and canonicalized, lies
outside the root directory (the root's components are not a prefix of the
canonical components) is answered 403; conversely, any successfully served
request (a `success` response, always status 200) has the root as a prefix
of the canonical resolved path, i.e. content is only served from the root
directory or its descendants. -/
theorem c1_path_confinement (srv : Server) (bsegs : List String) (p : String)
    (hbd : srv.base_dir = renderAbs bsegs)
    (hv : ∀ s ∈ bsegs, validName s = true) :
    (startsList bsegs
        (absSegs (osJoin srv.base_dir (pyLstripSlash (urlparsePath p)))) = false
      → do_GET srv p = .failure 403)
    ∧ (∀ st hs b, do_GET srv p = .success st hs b
      → st = 200 ∧ startsList bsegs
          (absSegs (osJoin srv.base_dir (pyLstripSlash (urlparsePath p)))) = true) := by
  constructor
  · exact do_GET_outside srv bsegs p hbd hv
  · intro st hs b h
    by_cases hstart : startsList bsegs
        (absSegs (osJoin srv.base_dir (pyLstripSlash (urlparsePath p)))) = true
    · refine ⟨?_, hstart⟩
      rw [do_GET_inside srv bsegs p hbd hv hstart] at h
      simp only [] at h
      by_cases h1 : pathIsFile srv.fs (osJoin srv.base_dir (pyLstripSlash (urlparsePath p))) = true
      · rw [if_pos h1] at h
        by_cases h2 : pyEndsWith (osJoin srv.base_dir (pyLstripSlash (urlparsePath p))) ".md" = true
        · rw [if_pos h2] at h
          exact serve_markdown_success_status _ _ _ _ _ h
        · rw [if_neg h2] at h
          exact serve_file_success_status _ _ _ _ _ h
      · rw [if_neg h1] at h
        by_cases h3 : pathIsDir srv.fs (osJoin srv.base_dir (pyLstripSlash (urlparsePath p))) = true
        · rw [if_pos h3] at h
          exact serve_directory_success_status _ _ _ _ _ h
        · rw [if_neg h3] at h
          cases h
    · rw [do_GET_outside srv bsegs p hbd hv (by simpa using hstart)] at h
      cases h

/-- Witness for C1 at a concrete input: `/../../etc/passwd` resolves to
`/etc/passwd`, outside the root `/srv`, and is answered 403. -/
theorem c1_path_confinement_witness : do_GET srvEx "/../../etc/passwd" = .failure 403 :=
  (c1_path_confinement srvEx ["srv"] "/../../etc/passwd" (by decide) (by decide)).1 (by decide)

/-- When the joined request path resolves to a regular file inside the
root, `do_GET` dispatches on the `.md` suffix of the path. -/
theorem do_GET_file (srv : Server) (bsegs : List String) (p : String) (data : List Nat)
    (hbd : srv.base_dir = renderAbs bsegs)
    (hv : ∀ s ∈ bsegs, validName s = true)
    (hstat : statPath srv.fs (osJoin srv.base_dir (pyLstripSlash (urlparsePath p)))
      = some (.file data))
    (hin : startsList bsegs
      (absSegs (osJoin srv.base_dir (pyLstripSlash (urlparsePath p)))) = true) :
    do_GET srv p =
      (if pyEndsWith (osJoin srv.base_dir (pyLstripSlash (urlparsePath p))) ".md" then
        serve_markdown srv (osJoin srv.base_dir (pyLstripSlash (urlparsePath p)))
      else
        serve_file srv (osJoin srv.base_dir (pyLstripSlash (urlparsePath p)))) := by
  rw [do_GET_inside srv bsegs p hbd hv hin]
  simp only []
  rw [if_pos (show pathIsFile srv.fs (osJoin srv.base_dir (pyLstripSlash (urlparsePath p)))
      = true from by
    unfold pathIsFile
    rw [hstat])]

/-- C6: an existing regular file inside the root whose name (basename)
does not end in `.md` is served raw: status 200, a `Content-Length` header
equal to its byte count, and the file's bytes as body. -/
theorem c6_raw_file_serving (srv : Server) (bsegs : List String) (p : String) (data : List Nat)
    (hbd : srv.base_dir = renderAbs bsegs)
    (hv : ∀ s ∈ bsegs, validName s = true)
    (hstat : statPath srv.fs (osJoin srv.base_dir (pyLstripSlash (urlparsePath p)))
      = some (.file data))
    (hnotmd : pyEndsWith (pyBasename (osJoin srv.base_dir (pyLstripSlash (urlparsePath p))))
      ".md" = false)
    (hin : startsList bsegs
      (absSegs (osJoin srv.base_dir (pyLstripSlash (urlparsePath p)))) = true) :
    do_GET srv p = .success 200 [("Content-Length", toString data.length)] (.bytes data) := by
  rw [do_GET_file srv bsegs p data hbd hv hstat hin]
  rw [if_neg (show ¬ (pyEndsWith (osJoin srv.base_dir (pyLstripSlash (urlparsePath p)))
      ".md" = true) from by
    rw [pyEndsWith_md_basename, hnotmd]
    simp)]
  unfold serve_file readBytes
  rw [hstat]

/-- Witness for C6: requesting `/notes.txt` over the example filesystem
returns its two raw bytes with a matching `Content-Length`. -/
theorem c6_raw_file_serving_witness :
    do_GET srvEx "/notes.txt"
      = .success 200 [("Content-Length", "2")] (.bytes [9, 8]) :=
  c6_raw_file_serving srvEx ["srv"] "/notes.txt" [9, 8]
    rfl (by decide) rfl rfl rfl

/-- C4 (amended): a failing UTF-8 decode while serving a Markdown file is
not converted to a 500 — only `ImportError` is caught — so the exception
escapes the handler and no response is produced by it. -/
theorem c4_decode_failure_uncaught (srv : Server) (bsegs : List String) (p : String)
    (bytes : List Nat)
    (hbd : srv.base_dir = renderAbs bsegs)
    (hv : ∀ s ∈ bsegs, validName s = true)
    (hstat : statPath srv.fs (osJoin srv.base_dir (pyLstripSlash (urlparsePath p)))
      = some (.file bytes))
    (hmd : pyEndsWith (osJoin srv.base_dir (pyLstripSlash (urlparsePath p))) ".md" = true)
    (hdec : utf8Decode bytes = none)
    (hin : startsList bsegs
      (absSegs (osJoin srv.base_dir (pyLstripSlash (urlparsePath p)))) = true) :
    do_GET srv p = .uncaught := by
  rw [do_GET_file srv bsegs p bytes hbd hv hstat hin]
  rw [if_pos hmd]
  unfold serve_markdown readBytes
  rw [hstat]
  have hrt : pyReadText bytes = none := by
    unfold pyReadText
    rw [hdec]
    rfl
  simp [hrt]

/-- Counterexample for C4 as stated: requesting `/bad.md` (whose single
byte `0xFF` is not valid UTF-8) makes the exception escape the handler;
the response is not a 500 server error. -/
theorem c4_decode_failure_counterexample :
    do_GET srvEx "/bad.md" = .uncaught ∧ do_GET srvEx "/bad.md" ≠ .failure 500 := by
  constructor
  · exact c4_decode_failure_uncaught srvEx ["srv"] "/bad.md" [255]
      rfl (by decide) rfl rfl rfl rfl
  · rw [c4_decode_failure_uncaught srvEx ["srv"] "/bad.md" [255]
      rfl (by decide) rfl rfl rfl rfl]
    intro h
    cases h

/-- Witness for the amended C4: the undecodable `/bad.md` also escapes the
handler when the markdown library is unavailable. -/
theorem c4_decode_failure_uncaught_witness : do_GET srvExNoMd "/bad.md" = .uncaught :=
  c4_decode_failure_uncaught srvExNoMd ["srv"] "/bad.md" [255]
    rfl (by decide) rfl rfl rfl rfl

theorem title_infix_mdPage (t b : String) : t.data <:+: (mdPage t b).data :=
  ⟨mdPagePre.data, ((mdPageMidA ++ backLink ++ mdPageMidB) ++ b ++ mdPagePost).data, by
    simp [mdPage, String.data_append]⟩

theorem backLink_infix_mdPage (t b : String) : backLink.data <:+: (mdPage t b).data :=
  ⟨(mdPagePre ++ t ++ mdPageMidA).data, (mdPageMidB ++ b ++ mdPagePost).data, by
    simp [mdPage, String.data_append]⟩

/-- C7 (amended): an existing Markdown file inside the root whose bytes
decode as UTF-8, requested while rendering is available, is served as the
templated HTML page: status 200, content type `text/html`, the prettified
basename inside the body (in its title), and the back link to `/`. -/
theorem c7_markdown_rendered_page (srv : Server) (bsegs : List String) (p : String)
    (bytes : List Nat) (text : String)
    (hbd : srv.base_dir = renderAbs bsegs)
    (hv : ∀ s ∈ bsegs, validName s = true)
    (hstat : statPath srv.fs (osJoin srv.base_dir (pyLstripSlash (urlparsePath p)))
      = some (.file bytes))
    (hmdpath : pyEndsWith (pyBasename (osJoin srv.base_dir (pyLstripSlash (urlparsePath p))))
      ".md" = true)
    (havail : srv.mdAvailable = true)
    (htext : pyReadText bytes = some text)
    (hin : startsList bsegs
      (absSegs (osJoin srv.base_dir (pyLstripSlash (urlparsePath p)))) = true) :
    do_GET srv p = .success 200 [("Content-type", "text/html")]
        (.text (mdPage (pretty (pyBasename (osJoin srv.base_dir (pyLstripSlash (urlparsePath p)))))
          (srv.render text)))
    ∧ (pretty (pyBasename (osJoin srv.base_dir (pyLstripSlash (urlparsePath p))))).data
        <:+: (mdPage (pretty (pyBasename (osJoin srv.base_dir (pyLstripSlash (urlparsePath p)))))
          (srv.render text)).data
    ∧ backLink.data
        <:+: (mdPage (pretty (pyBasename (osJoin srv.base_dir (pyLstripSlash (urlparsePath p)))))
          (srv.render text)).data := by
  refine ⟨?_, title_infix_mdPage _ _, backLink_infix_mdPage _ _⟩
  rw [do_GET_file srv bsegs p bytes hbd hv hstat hin]
  rw [if_pos (show pyEndsWith (osJoin srv.base_dir (pyLstripSlash (urlparsePath p)))
      ".md" = true from by rw [pyEndsWith_md_basename]; exact hmdpath)]
  unfold serve_markdown readBytes
  rw [hstat]
  simp [htext, havail]

/-- Counterexample for C7 as stated: `/bad.md` exists under the root and
rendering is available, yet the request does not yield a 200 `text/html`
page — the undecodable bytes make the exception escape the handler. -/
theorem c7_markdown_counterexample :
    do_GET srvEx "/bad.md" = .uncaught
    ∧ ∀ hs b, do_GET srvEx "/bad.md" ≠ .success 200 hs b := by
  have h : do_GET srvEx "/bad.md" = .uncaught := by decide
  refine ⟨h, ?_⟩
  intro hs b hcontra
  rw [h] at hcontra
  cases hcontra

/-- Witness for the amended C7: `/readme.md` is served as the rendered
HTML page built from its decoded text. -/
theorem c7_markdown_rendered_page_witness :
    do_GET srvEx "/readme.md" = .success 200 [("Content-type", "text/html")]
      (.text (mdPage (pretty (pyBasename "/srv/readme.md")) "hi")) :=
  (c7_markdown_rendered_page srvEx ["srv"] "/readme.md" [104, 105] "hi"
    rfl (by decide) rfl rfl rfl rfl rfl).1

/-- C8: a Markdown file request while the markdown library is unavailable
degrades to plain text: status 200, `text/plain` content type, and the
file's decoded UTF-8 text as body — the unavailability itself produces no
error status. -/
theorem c8_plaintext_fallback (srv : Server) (bsegs : List String) (p : String)
    (bytes : List Nat) (text : String)
    (hbd : srv.base_dir = renderAbs bsegs)
    (hv : ∀ s ∈ bsegs, validName s = true)
    (hstat : statPath srv.fs (osJoin srv.base_dir (pyLstripSlash (urlparsePath p)))
      = some (.file bytes))
    (hmd : pyEndsWith (osJoin srv.base_dir (pyLstripSlash (urlparsePath p))) ".md" = true)
    (hunavail : srv.mdAvailable = false)
    (htext : pyReadText bytes = some text)
    (hin : startsList bsegs
      (absSegs (osJoin srv.base_dir (pyLstripSlash (urlparsePath p)))) = true) :
    do_GET srv p
      = .success 200 [("Content-type", "text/plain; charset=utf-8")] (.text text) := by
  rw [do_GET_file srv bsegs p bytes hbd hv hstat hin]
  rw [if_pos hmd]
  unfold serve_markdown readBytes
  rw [hstat]
  simp [htext, hunavail]

/-- Witness for C8: with the markdown library unavailable, `/readme.md`
is served as plain text `hi`. -/
theorem c8_plaintext_fallback_witness :
    do_GET srvExNoMd "/readme.md"
      = .success 200 [("Content-type", "text/plain; charset=utf-8")] (.text "hi") :=
  c8_plaintext_fallback srvExNoMd ["srv"] "/readme.md" [104, 105] "hi"
    rfl (by decide) rfl rfl rfl rfl rfl

theorem pySplitSlash_append_slash (b : String) :
    pySplitSlash (b ++ "/") = pySplitSlash b ++ [""] := by
  unfold pySplitSlash
  rw [String.data_append, show ("/" : String).data = ['/'] from rfl]
  rw [show b.data ++ ['/'] = b.data ++ '/' :: ([] : List Char) from rfl]
  rw [chSplit_append_sep]
  simp [chSplit, chSplitA]
  rfl

/-- A trailing slash on a path that resolves to a directory changes
nothing about the resolution. -/
theorem statFull_trailing_slash (fs : FSNode) (b : String)
    (cs : List (String × FSNode)) (anc : List FSNode)
    (h : statFull (pySplitSlash b) fs [] = some (.dir cs, anc)) :
    statFull (pySplitSlash (b ++ "/")) fs [] = some (.dir cs, anc) := by
  rw [pySplitSlash_append_slash, statFull_append, h]
  rfl

theorem pyStartsWith_renderAbs_append (l : List String) (s : String) :
    pyStartsWith (renderAbs l ++ s) "/" = true := by
  unfold pyStartsWith
  rw [String.data_append, show (renderAbs l).data = '/' :: chJoinS (l.map String.data) from rfl]
  simp [startsList]

theorem pparts_renderAbs_slash (bsegs : List String) (hne : bsegs ≠ [])
    (hv : ∀ s ∈ bsegs, validName s = true) :
    pparts (renderAbs bsegs ++ "/") = bsegs := by
  rw [pparts_eq_filter, pySplitSlash_append_slash]
  rw [pySplitSlash_renderAbs bsegs hne (fun t ht =>
    ⟨(validName_spec t (hv t ht)).1, (validName_spec t (hv t ht)).2.2.2⟩)]
  rw [List.filter_append]
  rw [show (("" :: bsegs).filter (fun s => ¬ (s = "" ∨ s = ".")))
      = bsegs.filter (fun s => ¬ (s = "" ∨ s = ".")) from by
    simp [List.filter_cons]]
  rw [show (([""] : List String).filter (fun s => ¬ (s = "" ∨ s = "."))) = [] from by decide]
  rw [List.append_nil]
  exact List.filter_eq_self.mpr (fun t ht => by
    have := validName_spec t (hv t ht)
    simp [this.1, this.2.1])

/-- C2 (amended): a directory listing entry for a file named
`my-notes.md` in the root directory carries the href `/my-notes.md` and
the display label `My Notes.Md` — the prettifier is applied to the whole
filename, extension included, so each dot-separated word is capitalized. -/
theorem c2_listing_label (srv : Server) (bsegs : List String)
    (cs : List (String × FSNode)) (anc : List FSNode) (c : List Nat)
    (hbd : srv.base_dir = renderAbs bsegs)
    (hv : ∀ s ∈ bsegs, validName s = true)
    (hne : bsegs ≠ [])
    (hstat : statFull (pySplitSlash srv.base_dir) srv.fs [] = some (.dir cs, anc))
    (hmem : ("my-notes.md", FSNode.file c) ∈ cs)
    (hnodup : nodupKeys cs = true) :
    listingRow srv (srv.base_dir ++ "/") "my-notes.md"
      = some "<li>📝 <a href=\"/my-notes.md\">My Notes.Md</a></li>"
    ∧ "<li>📝 <a href=\"/my-notes.md\">My Notes.Md</a></li>"
        ∈ dirRows srv (srv.base_dir ++ "/") (cs.map (fun x => x.1)) := by
  have hitem : validName "my-notes.md" = true := by decide
  have hd2 : statFull (pySplitSlash (srv.base_dir ++ "/")) srv.fs [] = some (.dir cs, anc) :=
    statFull_trailing_slash srv.fs srv.base_dir cs anc hstat
  have habs : pyStartsWith (srv.base_dir ++ "/") "/" = true := by
    rw [hbd]
    exact pyStartsWith_renderAbs_append bsegs "/"
  have hchild := statFull_pathlibJoin srv.fs (srv.base_dir ++ "/") "my-notes.md" cs anc
    (.file c) hd2 habs hitem hmem hnodup
  have hstatp : statPath srv.fs (pathlibJoin (srv.base_dir ++ "/") "my-notes.md")
      = some (.file c) := by
    unfold statPath
    rw [hchild]
    rfl
  have hsuffix : pathlibSuffix (pathlibJoin (srv.base_dir ++ "/") "my-notes.md") = ".md" := by
    rw [pathlibSuffix_pathlibJoin (srv.base_dir ++ "/") "my-notes.md" habs hitem]
    decide
  have hjoin : pathlibJoin (srv.base_dir ++ "/") "my-notes.md"
      = renderAbs (bsegs ++ ["my-notes.md"]) := by
    unfold pathlibJoin
    rw [pyStartsWith_slash_of_valid "my-notes.md" hitem, habs]
    rw [hbd, pparts_renderAbs_slash bsegs hne hv, pparts_single "my-notes.md" hitem]
    simp
  have hrel : relpathOf (pathlibJoin (srv.base_dir ++ "/") "my-notes.md") srv.base_dir
      = "my-notes.md" := by
    rw [hjoin, hbd]
    exact relpathOf_child bsegs "my-notes.md" hv hitem
  have hrow : listingRow srv (srv.base_dir ++ "/") "my-notes.md"
      = some "<li>📝 <a href=\"/my-notes.md\">My Notes.Md</a></li>" := by
    unfold listingRow
    rw [show pyStartsWith "my-notes.md" "." = false from by decide]
    simp only [Bool.false_eq_true, if_false]
    rw [show pathIsFile srv.fs (pathlibJoin (srv.base_dir ++ "/") "my-notes.md") = true from by
      unfold pathIsFile
      rw [hstatp]]
    rw [hsuffix]
    rw [show pathIsDir srv.fs (pathlibJoin (srv.base_dir ++ "/") "my-notes.md") = false from by
      unfold pathIsDir
      rw [hstatp]]
    rw [hrel]
    unfold icon_for
    rw [show pathIsDir srv.fs (pathlibJoin (srv.base_dir ++ "/") "my-notes.md") = false from by
      unfold pathIsDir
      rw [hstatp]]
    rw [hsuffix]
    simp [pyQuote, pretty, iconsGet]
    decide
  refine ⟨hrow, ?_⟩
  unfold dirRows
  rw [List.mem_filterMap]
  refine ⟨"my-notes.md", ?_, hrow⟩
  rw [mem_sortStrings]
  rw [List.mem_map]
  exact ⟨("my-notes.md", FSNode.file c), hmem, rfl⟩

/-- Counterexample for C2 as stated: the label generated for
`my-notes.md` is `My Notes.Md`, not `My Notes` (the `.title()` transform
also capitalizes the extension, which is not stripped). -/
theorem c2_label_counterexample :
    pretty "my-notes.md" = "My Notes.Md"
    ∧ pretty "my-notes.md" ≠ "My Notes"
    ∧ listingRow srvEx "/srv/" "my-notes.md"
        = some "<li>📝 <a href=\"/my-notes.md\">My Notes.Md</a></li>" :=
  ⟨by decide, by decide, by decide⟩

/-- Witness for the amended C2 over the concrete example server. -/
theorem c2_listing_label_witness :
    listingRow srvEx ("/srv" ++ "/") "my-notes.md"
      = some "<li>📝 <a href=\"/my-notes.md\">My Notes.Md</a></li>" :=
  (c2_listing_label srvEx ["srv"]
    [("my-notes.md", .file [104, 105]),
     ("my notes.md", .file [104, 105]),
     ("NOTES.MD", .file [1, 2, 3]),
     ("notes.txt", .file [9, 8]),
     (".hidden.md", .file []),
     ("sub", .dir []),
     ("bad.md", .file [255]),
     ("readme.md", .file [104, 105])]
    [fsEx] [104, 105]
    rfl (by decide) (by decide) rfl (by simp) rfl).1

/-- C9: every entry emitted into a directory listing uses the folder icon
(directories) or the markdown-document icon (`.md` files); the generic
document icon `📄` is unreachable through the listing filter. -/
theorem c9_listing_icons (srv : Server) (dir_path item : String)
    (cs : List (String × FSNode)) (anc : List FSNode) (node : FSNode) (row : String)
    (hd : statFull (pySplitSlash dir_path) srv.fs [] = some (.dir cs, anc))
    (habs : pyStartsWith dir_path "/" = true)
    (hitem : validName item = true)
    (hmem : (item, node) ∈ cs)
    (hnodup : nodupKeys cs = true)
    (hrow : listingRow srv dir_path item = some row) :
    icon_for srv.fs (pathlibJoin dir_path item) = "📁"
    ∨ icon_for srv.fs (pathlibJoin dir_path item) = "📝" := by
  have hchild := statFull_pathlibJoin srv.fs dir_path item cs anc node hd habs hitem hmem hnodup
  have hstatp : statPath srv.fs (pathlibJoin dir_path item) = some node := by
    unfold statPath
    rw [hchild]
    rfl
  cases node with
  | dir dcs =>
    left
    have hdir : pathIsDir srv.fs (pathlibJoin dir_path item) = true := by
      unfold pathIsDir
      rw [hstatp]
    simp [icon_for, hdir]
  | file b =>
    right
    have hnd : pathIsDir srv.fs (pathlibJoin dir_path item) = false := by
      unfold pathIsDir
      rw [hstatp]
    have hf : pathIsFile srv.fs (pathlibJoin dir_path item) = true := by
      unfold pathIsFile
      rw [hstatp]
    by_cases hsuf : pyLower (pathlibSuffix (pathlibJoin dir_path item)) = ".md"
    · simp [icon_for, hnd, hsuf, iconsGet]
    · exfalso
      by_cases hh : pyStartsWith item "." = true
      · rw [show listingRow srv dir_path item = none from by
          unfold listingRow
          rw [hh]
          rfl] at hrow
        cases hrow
      · rw [show listingRow srv dir_path item = none from by
          unfold listingRow
          rw [show pyStartsWith item "." = false from by simpa using hh]
          simp only [Bool.false_eq_true, if_false]
          rw [if_pos ⟨hf, hsuf⟩]] at hrow
        cases hrow

/-- Witness for C9: the subdirectory entry `sub` of the example listing
carries the folder icon. -/
theorem c9_listing_icons_witness :
    icon_for srvEx.fs (pathlibJoin "/srv/" "sub") = "📁"
    ∨ icon_for srvEx.fs (pathlibJoin "/srv/" "sub") = "📝" :=
  c9_listing_icons srvEx "/srv/" "sub"
    [("my-notes.md", .file [104, 105]),
     ("my notes.md", .file [104, 105]),
     ("NOTES.MD", .file [1, 2, 3]),
     ("notes.txt", .file [9, 8]),
     (".hidden.md", .file []),
     ("sub", .dir []),
     ("bad.md", .file [255]),
     ("readme.md", .file [104, 105])]
    [fsEx] (.dir []) "<li>📁 <a href=\"/sub\">Sub/</a></li>"
    rfl rfl (by decide) (by simp) rfl rfl

/-- C10: a file with an upper- or mixed-case `.md` extension (its suffix
lowercases to `.md` but the name does not end in the exact lowercase
`.md`) is included in its parent's listing, yet a request for it is served
as a raw file — bytes plus `Content-Length` — not as a Markdown page (the
dispatch suffix test is case-sensitive). -/
theorem c10_case_insensitive_listing_case_sensitive_dispatch
    (srv : Server) (bsegs : List String) (p dir_path item : String) (data : List Nat)
    (cs : List (String × FSNode)) (anc : List FSNode)
    (hd : statFull (pySplitSlash dir_path) srv.fs [] = some (.dir cs, anc))
    (habs : pyStartsWith dir_path "/" = true)
    (hitem : validName item = true)
    (hmem : (item, FSNode.file data) ∈ cs)
    (hnodup : nodupKeys cs = true)
    (hsuflow : pyLower (pathSuffix item) = ".md")
    (hnotmd : pyEndsWith item ".md" = false)
    (hnothidden : pyStartsWith item "." = false)
    (hbd : srv.base_dir = renderAbs bsegs)
    (hv : ∀ s ∈ bsegs, validName s = true)
    (hstat : statPath srv.fs (osJoin srv.base_dir (pyLstripSlash (urlparsePath p)))
      = some (.file data))
    (hbn : pyBasename (osJoin srv.base_dir (pyLstripSlash (urlparsePath p))) = item)
    (hin : startsList bsegs
      (absSegs (osJoin srv.base_dir (pyLstripSlash (urlparsePath p)))) = true) :
    (listingRow srv dir_path item).isSome = true
    ∧ do_GET srv p = .success 200 [("Content-Length", toString data.length)] (.bytes data) := by
  constructor
  · have hchild := statFull_pathlibJoin srv.fs dir_path item cs anc (.file data)
      hd habs hitem hmem hnodup
    have hstatp : statPath srv.fs (pathlibJoin dir_path item) = some (.file data) := by
      unfold statPath
      rw [hchild]
      rfl
    have hnd : pathIsDir srv.fs (pathlibJoin dir_path item) = false := by
      unfold pathIsDir
      rw [hstatp]
    have hsufj : pyLower (pathlibSuffix (pathlibJoin dir_path item)) = ".md" := by
      rw [pathlibSuffix_pathlibJoin dir_path item habs hitem]
      exact hsuflow
    unfold listingRow
    rw [hnothidden]
    simp only [Bool.false_eq_true, if_false]
    rw [if_neg (show ¬ (pathIsFile srv.fs (pathlibJoin dir_path item) = true
        ∧ pyLower (pathlibSuffix (pathlibJoin dir_path item)) ≠ ".md") from by
      intro hcontra
      exact hcontra.2 hsufj)]
    rfl
  · rw [do_GET_file srv bsegs p data hbd hv hstat hin]
    rw [if_neg (show ¬ (pyEndsWith (osJoin srv.base_dir (pyLstripSlash (urlparsePath p)))
        ".md" = true) from by
      rw [pyEndsWith_md_basename, hbn, hnotmd]
      simp)]
    unfold serve_file readBytes
    rw [hstat]

/-- Witness for C10: `NOTES.MD` is listed (row generated) and served raw
with `Content-Length: 3`. -/
theorem c10_case_mismatch_witness :
    (listingRow srvEx "/srv/" "NOTES.MD").isSome = true
    ∧ do_GET srvEx "/NOTES.MD" = .success 200 [("Content-Length", "3")] (.bytes [1, 2, 3]) :=
  c10_case_insensitive_listing_case_sensitive_dispatch srvEx ["srv"]
    "/NOTES.MD" "/srv/" "NOTES.MD" [1, 2, 3]
    [("my-notes.md", .file [104, 105]),
     ("my notes.md", .file [104, 105]),
     ("NOTES.MD", .file [1, 2, 3]),
     ("notes.txt", .file [9, 8]),
     (".hidden.md", .file []),
     ("sub", .dir []),
     ("bad.md", .file [255]),
     ("readme.md", .file [104, 105])]
    [fsEx]
    rfl rfl (by decide) (by simp) rfl (by decide) (by decide) (by decide)
    rfl (by decide) rfl rfl rfl

/-- C5 is false of the code: the request path is never percent-decoded
(`urlparse` does not unquote and `do_GET` joins the raw path), so the
percent-encoded link the listing emits for `my notes.md` yields 404, while
the undecoded path with a literal space serves the file. -/
theorem c5_no_percent_decoding :
    listingRow srvEx "/srv/" "my notes.md"
      = some "<li>📝 <a href=\"/my%20notes.md\">My Notes.Md</a></li>"
    ∧ do_GET srvEx "/my%20notes.md" = .failure 404
    ∧ do_GET srvEx "/my notes.md" = .success 200 [("Content-type", "text/html")]
        (.text (mdPage "My Notes.Md" "hi")) := by
  set_option maxRecDepth 4096 in
  exact ⟨by decide, by decide, by decide⟩

theorem pyStartsWith_lstrip (s : String) : pyStartsWith (pyLstripSlash s) "/" = false := by
  unfold pyStartsWith pyLstripSlash
  rw [data_mkStr, show ("/" : String).data = ['/'] from rfl]
  cases hdw : s.data.dropWhile (fun c => c = '/') with
  | nil => rfl
  | cons c t =>
    have hc : (fun c => decide (c = '/')) c = false := by
      have := List.head?_dropWhile_not (fun c => decide (c = '/')) s.data
      rw [hdw] at this
      simpa using this
    rw [decide_eq_false_iff_not] at hc
    simp [startsList, Ne.symm hc]

theorem osJoin_startsWith_slash (l : List String) (rel : String)
    (hrel : pyStartsWith rel "/" = false) :
    pyStartsWith (osJoin (renderAbs l) rel) "/" = true := by
  unfold osJoin
  rw [hrel]
  simp only [Bool.false_eq_true, if_false]
  by_cases h2 : renderAbs l = "" ∨ pyEndsWith (renderAbs l) "/" = true
  · rw [if_pos h2]
    exact pyStartsWith_renderAbs_append l rel
  · rw [if_neg h2]
    unfold pyStartsWith
    rw [String.data_append, String.data_append]
    rw [show (renderAbs l).data = '/' :: chJoinS (l.map String.data) from rfl]
    simp [startsList]

theorem dirWf_spec (cs : List (String × FSNode)) (h : dirWf cs = true) :
    (∀ q ∈ cs, validName q.1 = true) ∧ nodupKeys cs = true := by
  unfold dirWf at h
  rw [Bool.and_eq_true, List.all_eq_true] at h
  exact h

/-- C3: requesting a directory inside the root yields status 200 with
content type `text/html` and the templated listing page; an entry of the
directory contributes a listing row exactly when it is not hidden (no
leading dot) and is either a subdirectory or a file whose extension
compares case-insensitively equal to `.md`; and the names contributing
rows, in the order the page emits them, are lexicographically
nondecreasing. -/
theorem c3_directory_listing (srv : Server) (bsegs : List String) (p : String)
    (cs : List (String × FSNode)) (anc : List FSNode)
    (hbd : srv.base_dir = renderAbs bsegs)
    (hv : ∀ s ∈ bsegs, validName s = true)
    (hstat : statFull
      (pySplitSlash (osJoin srv.base_dir (pyLstripSlash (urlparsePath p)))) srv.fs []
      = some (.dir cs, anc))
    (hwf : dirWf cs = true)
    (hin : startsList bsegs
      (absSegs (osJoin srv.base_dir (pyLstripSlash (urlparsePath p)))) = true) :
    do_GET srv p = .success 200 [("Content-type", "text/html")]
      (.text (dirPage
        (pretty (if relpathOf (osJoin srv.base_dir (pyLstripSlash (urlparsePath p)))
                    srv.base_dir = "."
                 then "."
                 else relpathOf (osJoin srv.base_dir (pyLstripSlash (urlparsePath p)))
                    srv.base_dir))
        (strJoin (dirRows srv (osJoin srv.base_dir (pyLstripSlash (urlparsePath p)))
          (cs.map (fun x => x.1))))))
    ∧ (∀ item : String,
        (item ∈ cs.map (fun x => x.1)
          ∧ (listingRow srv (osJoin srv.base_dir (pyLstripSlash (urlparsePath p)))
              item).isSome = true)
        ↔ (∃ node, (item, node) ∈ cs ∧ pyStartsWith item "." = false
            ∧ (isDirNode node = true
               ∨ (isFileNode node = true ∧ pyLower (pathSuffix item) = ".md"))))
    ∧ ((sortStrings (cs.map (fun x => x.1))).filter
        (fun item => (listingRow srv (osJoin srv.base_dir (pyLstripSlash (urlparsePath p)))
          item).isSome)).Pairwise (fun a b => pyStrLe a b = true) := by
  have hstatp : statPath srv.fs (osJoin srv.base_dir (pyLstripSlash (urlparsePath p)))
      = some (.dir cs) := by
    unfold statPath
    rw [hstat]
    rfl
  have habs : pyStartsWith (osJoin srv.base_dir (pyLstripSlash (urlparsePath p))) "/" = true := by
    rw [hbd]
    exact osJoin_startsWith_slash bsegs _ (pyStartsWith_lstrip _)
  obtain ⟨hwfn, hwfd⟩ := dirWf_spec cs hwf
  refine ⟨?_, ?_, ?_⟩
  · rw [do_GET_inside srv bsegs p hbd hv hin]
    simp only []
    rw [if_neg (show ¬ (pathIsFile srv.fs
        (osJoin srv.base_dir (pyLstripSlash (urlparsePath p))) = true) from by
      unfold pathIsFile
      rw [hstatp]
      simp)]
    rw [if_pos (show pathIsDir srv.fs
        (osJoin srv.base_dir (pyLstripSlash (urlparsePath p))) = true from by
      unfold pathIsDir
      rw [hstatp])]
    unfold serve_directory
    rw [hstatp]
  · intro item
    constructor
    · rintro ⟨hnames, hsome⟩
      obtain ⟨q, hmem0, heq⟩ := List.mem_map.mp hnames
      obtain ⟨n0, node⟩ := q
      rw [show ((n0, node) : String × FSNode).1 = n0 from rfl] at heq
      rw [heq] at hmem0
      have hitem : validName item = true := hwfn (item, node) hmem0
      have hchild := statFull_pathlibJoin srv.fs _ item cs anc node hstat habs hitem hmem0 hwfd
      have hstatc : statPath srv.fs
          (pathlibJoin (osJoin srv.base_dir (pyLstripSlash (urlparsePath p))) item)
          = some node := by
        unfold statPath
        rw [hchild]
        rfl
      by_cases hh : pyStartsWith item "." = true
      · exfalso
        rw [show listingRow srv (osJoin srv.base_dir (pyLstripSlash (urlparsePath p))) item
            = none from by
          unfold listingRow
          rw [hh]
          rfl] at hsome
        cases hsome
      · refine ⟨node, hmem0, by simpa using hh, ?_⟩
        cases node with
        | dir dcs => left; rfl
        | file b =>
          right
          refine ⟨rfl, ?_⟩
          by_cases hsuf : pyLower (pathlibSuffix
              (pathlibJoin (osJoin srv.base_dir (pyLstripSlash (urlparsePath p))) item)) = ".md"
          · rw [← pathlibSuffix_pathlibJoin
              (osJoin srv.base_dir (pyLstripSlash (urlparsePath p))) item habs hitem]
            exact hsuf
          · exfalso
            rw [show listingRow srv (osJoin srv.base_dir (pyLstripSlash (urlparsePath p))) item
                = none from by
              unfold listingRow
              rw [show pyStartsWith item "." = false from by simpa using hh]
              simp only [Bool.false_eq_true, if_false]
              rw [if_pos ⟨(show pathIsFile srv.fs
                  (pathlibJoin (osJoin srv.base_dir (pyLstripSlash (urlparsePath p))) item)
                  = true from by
                unfold pathIsFile
                rw [hstatc]), hsuf⟩]] at hsome
            cases hsome
    · rintro ⟨node, hmem0, hnothidden, hkind⟩
      have hitem : validName item = true := hwfn (item, node) hmem0
      have hchild := statFull_pathlibJoin srv.fs _ item cs anc node hstat habs hitem hmem0 hwfd
      have hstatc : statPath srv.fs
          (pathlibJoin (osJoin srv.base_dir (pyLstripSlash (urlparsePath p))) item)
          = some node := by
        unfold statPath
        rw [hchild]
        rfl
      refine ⟨List.mem_map.mpr ⟨(item, node), hmem0, rfl⟩, ?_⟩
      unfold listingRow
      rw [show pyStartsWith item "." = false from hnothidden]
      simp only [Bool.false_eq_true, if_false]
      rw [if_neg (show ¬ (pathIsFile srv.fs
          (pathlibJoin (osJoin srv.base_dir (pyLstripSlash (urlparsePath p))) item) = true
          ∧ pyLower (pathlibSuffix
              (pathlibJoin (osJoin srv.base_dir (pyLstripSlash (urlparsePath p))) item))
            ≠ ".md") from by
        rintro ⟨hfile, hne⟩
        rcases hkind with hdir | ⟨hfilek, hmd⟩
        · cases node with
          | dir dcs =>
            unfold pathIsFile at hfile
            rw [hstatc] at hfile
            cases hfile
          | file b => cases hdir
        · apply hne
          rw [pathlibSuffix_pathlibJoin
            (osJoin srv.base_dir (pyLstripSlash (urlparsePath p))) item habs hitem]
          exact hmd)]
      rfl
  · exact (sortStrings_pairwise (cs.map (fun x => x.1))).filter _

/-- Witness for C3: requesting `/` over the example server returns the
templated listing page for the root directory's entries. -/
theorem c3_directory_listing_witness :
    do_GET srvEx "/" = .success 200 [("Content-type", "text/html")]
      (.text (dirPage (pretty ".")
        (strJoin (dirRows srvEx "/srv/"
          ["my-notes.md", "my notes.md", "NOTES.MD", "notes.txt",
           ".hidden.md", "sub", "bad.md", "readme.md"])))) :=
  (c3_directory_listing srvEx ["srv"] "/"
    [("my-notes.md", .file [104, 105]),
     ("my notes.md", .file [104, 105]),
     ("NOTES.MD", .file [1, 2, 3]),
     ("notes.txt", .file [9, 8]),
     (".hidden.md", .file []),
     ("sub", .dir []),
     ("bad.md", .file [255]),
     ("readme.md", .file [104, 105])]
    [fsEx]
    rfl (by decide) rfl (by decide) rfl).1

end MdViewer
